import Mathlib

/-!
Verification of the checkpoint / retry / cache / failover core of the
VideoTranslator repository, as a shallow embedding in Lean 4.

Conventions used throughout:
* Python floats are modelled as exact rationals (`ℚ`); timestamps as `Nat`
  seconds.
* Python dicts whose insertion order is irrelevant are modelled as
  association lists with unique keys (`insertA` replaces, `eraseA` deletes).
* `hashlib.md5` is modelled as an injective function, i.e. the identity on
  the exact byte string that the source feeds into the hasher.  Equal input
  strings give equal digests (true of md5); distinct input strings are
  assumed to give distinct digests (the standard no-collision idealisation).
* Fallible Python code is modelled with `Option`/`Except`; an exception is
  `Except.error` / `Option.none`.
-/

namespace VideoTranslator

/-- Association-list lookup (first binding wins), modelling Python dict
access `m[k]` / `m.get(k)`. -/
def lookupA {β : Type} : List (String × β) → String → Option β
  | [], _ => none
  | (k, v) :: rest, key => if k = key then some v else lookupA rest key

/-- Deletes every binding of `key`, modelling `del m[k]` / `m.pop(k, None)`
on a dict (whose keys are unique). -/
def eraseA {β : Type} (m : List (String × β)) (key : String) : List (String × β) :=
  m.filter (fun e => !(e.1 = key : Bool))

/-- Dict assignment `m[k] = v`: the key is (re)bound, all keys stay unique. -/
def insertA {β : Type} (m : List (String × β)) (key : String) (v : β) : List (String × β) :=
  (key, v) :: eraseA m key

@[simp] theorem lookupA_nil {β : Type} (key : String) : lookupA ([] : List (String × β)) key = none := rfl

@[simp] theorem lookupA_cons {β : Type} (k : String) (v : β) (rest : List (String × β)) (key : String) :
    lookupA ((k, v) :: rest) key = if k = key then some v else lookupA rest key := rfl

theorem lookupA_eraseA {β : Type} (m : List (String × β)) (j key : String) :
    lookupA (eraseA m j) key = if key = j then none else lookupA m key := by
  induction m with
  | nil => simp [eraseA]
  | cons e rest ih =>
    obtain ⟨k, v⟩ := e
    by_cases hkj : k = j
    · have he : eraseA ((k, v) :: rest) j = eraseA rest j := by
        simp [eraseA, List.filter, hkj]
      rw [he, ih]
      by_cases hkey : key = j
      · simp [hkey]
      · have hk : ¬ k = key := by rw [hkj]; exact fun h => hkey h.symm
        simp [hkey, hk]
    · have he : eraseA ((k, v) :: rest) j = (k, v) :: eraseA rest j := by
        simp [eraseA, List.filter, hkj]
      rw [he]
      by_cases hkkey : k = key
      · subst hkkey
        have hkey : ¬ k = j := hkj
        simp [hkey]
      · simp [lookupA_cons, hkkey, ih]

@[simp] theorem lookupA_insertA_self {β : Type} (m : List (String × β)) (key : String) (v : β) :
    lookupA (insertA m key v) key = some v := by
  simp [insertA]

theorem lookupA_insertA_ne {β : Type} (m : List (String × β)) (k key : String) (v : β)
    (h : key ≠ k) : lookupA (insertA m k v) key = lookupA m key := by
  have hk : ¬ k = key := fun hh => h hh.symm
  simp [insertA, lookupA_cons, hk, lookupA_eraseA, h]

/-! ## Translation data model (`app/core/translation.py`) -/

/-- Mirror of the `TranslationResult` dataclass.  `metadata : Dict[str, Any]`
is modelled as a string-valued association list (its contents are opaque to
every operation studied here). -/
structure TranslationResult where
  original_text : String
  translated_text : String
  source_lang : String
  target_lang : String
  confidence : ℚ := 0
  service : String := "unknown"
  metadata : List (String × String) := []
deriving Repr, DecidableEq

/-- Mirror of the `TranslationRequest` dataclass (the optional `context` and
`terminology` fields are never set on the code paths studied and are
omitted). -/
structure TranslationRequest where
  text : String
  source_lang : String
  target_lang : String
deriving Repr, DecidableEq

/-- `TranslationCache._generate_key`: the source feeds
`f"{text}:{source_lang}:{target_lang}:{service}"` to md5; md5 is modelled as
the identity on that string (see the header note on hashing). -/
def generateKey (text source_lang target_lang service : String) : String :=
  text ++ ":" ++ source_lang ++ ":" ++ target_lang ++ ":" ++ service

/-- A row of the persistent (SQLite) tier of the cache: the columns of the
`translations` table other than the `hash` primary key. -/
structure CacheRow where
  original_text : String
  translated_text : String
  source_lang : String
  target_lang : String
  service : String
  timestamp : Nat
  confidence : Option ℚ
  metadata : Option (List (String × String))
deriving Repr, DecidableEq

/-- State of the refactored `TranslationCache` (LRU memory tier plus
persistent SQLite tier). -/
structure TCache where
  max_memory_size : Nat
  memory : List (String × TranslationResult)
  accessOrder : List String
  persistent : List (String × CacheRow)
deriving Repr

/-- Eviction loop of `TranslationCache._maintain_lru`: while the memory dict
is over capacity, pop the head of the access order and drop that key.  (With
an empty order and an over-capacity dict the Python `pop(0)` would raise;
that state is unreachable, and the model simply stops.) -/
def evictLoop (maxSize : Nat) :
    List String → List (String × TranslationResult) → List String × List (String × TranslationResult)
  | [], mem => ([], mem)
  | k :: rest, mem =>
    if mem.length > maxSize then evictLoop maxSize rest (eraseA mem k)
    else (k :: rest, mem)

/-- `TranslationCache._maintain_lru`: move `key` to the most-recent end of
the access order, then evict oldest entries while over capacity. -/
def maintainLRU (c : TCache) (key : String) : TCache :=
  let p := evictLoop c.max_memory_size ((c.accessOrder.erase key) ++ [key]) c.memory
  { c with accessOrder := p.1, memory := p.2 }

/-- Python `confidence or 0.0` applied to the nullable `confidence` column. -/
def pyOrZero (x : Option ℚ) : ℚ :=
  match x with
  | none => 0
  | some c => if c = 0 then 0 else c

/-- Rebuilds a `TranslationResult` from a persistent row, as the hit branch
of `TranslationCache.get` does (`json.loads` on the metadata column is
modelled as the inverse of the `json.dumps` in `store`). -/
def rowToResult (row : CacheRow) : TranslationResult :=
  { original_text := row.original_text
    translated_text := row.translated_text
    source_lang := row.source_lang
    target_lang := row.target_lang
    confidence := pyOrZero row.confidence
    service := row.service
    metadata := row.metadata.getD [] }

/-- `TranslationCache.get`: memory tier first (LRU bump on hit), then the
persistent tier (hit is copied into the memory tier), else `None`. -/
def cacheGet (c : TCache) (text source_lang target_lang service : String) :
    Option TranslationResult × TCache :=
  let key := generateKey text source_lang target_lang service
  match lookupA c.memory key with
  | some r => (some r, maintainLRU c key)
  | none =>
    match lookupA c.persistent key with
    | some row =>
      let r := rowToResult row
      let c' := { c with memory := insertA c.memory key r }
      (some r, maintainLRU c' key)
    | none => (none, c)

/-- `TranslationCache.store`: write-through to the memory tier (with LRU
maintenance) and to the persistent tier (`INSERT OR REPLACE` keyed by the
hash); `now` stands for `time.time()`. -/
def cacheStore (c : TCache) (r : TranslationResult) (now : Nat) : TCache :=
  let key := generateKey r.original_text r.source_lang r.target_lang r.service
  let c₁ := maintainLRU { c with memory := insertA c.memory key r } key
  let row : CacheRow :=
    { original_text := r.original_text
      translated_text := r.translated_text
      source_lang := r.source_lang
      target_lang := r.target_lang
      service := r.service
      timestamp := now
      confidence := some r.confidence
      metadata := if r.metadata = [] then none else some r.metadata }
  { c₁ with persistent := insertA c.persistent key row }

/-! Helper lemmas: eviction only ever removes memory entries. -/

theorem lookupA_evictLoop_some {maxSize : Nat} :
    ∀ (order : List String) (mem : List (String × TranslationResult)) (k : String) (v : TranslationResult),
      lookupA (evictLoop maxSize order mem).2 k = some v → lookupA mem k = some v := by
  intro order
  induction order with
  | nil => intro mem k v h; simpa [evictLoop] using h
  | cons k₀ rest ih =>
    intro mem k v h
    by_cases hlen : mem.length > maxSize
    · simp only [evictLoop, if_pos hlen] at h
      have h' := ih _ _ _ h
      rw [lookupA_eraseA] at h'
      by_cases hk : k = k₀
      · simp [hk] at h'
      · simpa [hk] using h'
    · simpa [evictLoop, if_neg hlen] using h

theorem lookupA_maintainLRU_some (c : TCache) (key k : String) (v : TranslationResult)
    (h : lookupA (maintainLRU c key).memory k = some v) : lookupA c.memory k = some v :=
  lookupA_evictLoop_some _ _ _ _ h

/-- C6 (claim): for every translation result `r`, `store(r)` followed by
`get(r.original_text, r.source_lang, r.target_lang, r.service)` returns a
result whose `translated_text` and `confidence` are identical to `r`'s.
Holds for every prior cache state, every capacity (including an LRU tier
too small to retain the entry, in which case the hit comes from the
persistent tier) and every timestamp. -/
theorem cache_roundtrip (c : TCache) (r : TranslationResult) (now : Nat) :
    ∃ r', (cacheGet (cacheStore c r now) r.original_text r.source_lang r.target_lang r.service).1 = some r'
      ∧ r'.translated_text = r.translated_text ∧ r'.confidence = r.confidence := by
  set key := generateKey r.original_text r.source_lang r.target_lang r.service with hkey
  unfold cacheStore
  simp only [← hkey]
  set row : CacheRow :=
    { original_text := r.original_text
      translated_text := r.translated_text
      source_lang := r.source_lang
      target_lang := r.target_lang
      service := r.service
      timestamp := now
      confidence := some r.confidence
      metadata := if r.metadata = [] then none else some r.metadata } with hrow
  set c₁ := maintainLRU { c with memory := insertA c.memory key r } key with hc₁
  cases hm : lookupA c₁.memory key with
  | some r₀ =>
    have h₀ : lookupA (insertA c.memory key r) key = some r₀ :=
      lookupA_maintainLRU_some _ _ _ _ hm
    rw [lookupA_insertA_self] at h₀
    obtain rfl : r = r₀ := by injection h₀
    refine ⟨r, ?_, rfl, rfl⟩
    simp [cacheGet, ← hkey, hm]
  | none =>
    refine ⟨rowToResult row, ?_, by simp [rowToResult, hrow], ?_⟩
    · simp [cacheGet, ← hkey, hm, lookupA_insertA_self]
    · simp only [rowToResult, hrow, pyOrZero]
      by_cases h0 : r.confidence = 0 <;> simp [h0]

/-! ## Terminology substitution (`TerminologyManager`) -/

/-- Word characters for the regex `\b` boundary: ASCII alphanumerics and
underscore, with every non-ASCII character (e.g. the CJK characters of the
default terminology) treated as a word character, matching Python's Unicode
`\w` on the alphabets that occur in this program. -/
def isWordChar (c : Char) : Bool :=
  c.isAlphanum || c = '_' || c.val ≥ 0x80

/-- Case-insensitive prefix match (re.IGNORECASE): returns the remainder of
the text after the pattern when the pattern matches at the front. -/
def matchCI : List Char → List Char → Option (List Char)
  | [], s => some s
  | _ :: _, [] => none
  | p :: ps, c :: cs => if p.toLower = c.toLower then matchCI ps cs else none

/-- One left-to-right, non-overlapping pass of
`re.sub(r'\b' + re.escape(term) + r'\b', target, text, flags=re.IGNORECASE)`.
`prevW` says whether the character before the current position is a word
character (false at the start of the string); a `\b` boundary holds where
word-ness flips.  The fuel argument only bounds the recursion and is set to
the text length by the wrapper. -/
def replaceWordAux (pat rep : List Char) : Nat → Bool → List Char → List Char
  | 0, _, s => s
  | _ + 1, _, [] => []
  | fuel + 1, prevW, c :: cs =>
    if prevW != isWordChar c then
      match matchCI pat (c :: cs) with
      | some rest =>
        let lastW := isWordChar (((c :: cs).take pat.length).getLastD ' ')
        let afterW := match rest with
          | [] => false
          | d :: _ => isWordChar d
        if lastW != afterW then
          rep ++ replaceWordAux pat rep fuel lastW rest
        else
          c :: replaceWordAux pat rep fuel (isWordChar c) cs
      | none => c :: replaceWordAux pat rep fuel (isWordChar c) cs
    else
      c :: replaceWordAux pat rep fuel (isWordChar c) cs

/-- Whole-word, case-insensitive replacement of one terminology entry, the
body of the loop in `TerminologyManager.apply_terminology`. -/
def replaceWord (term target text : String) : String :=
  match term.data with
  | [] => text
  | pat => ⟨replaceWordAux pat target.data text.data.length false text.data⟩

/-- `TerminologyManager.apply_terminology`: no-op unless the language pair
has a glossary; otherwise each entry is substituted in order. -/
def applyTerminology (terminology : List (String × List (String × String)))
    (text source_lang target_lang : String) : String :=
  let pair := source_lang ++ "-" ++ target_lang
  match lookupA terminology pair with
  | none => text
  | some terms => terms.foldl (fun acc st => replaceWord st.1 st.2 acc) text

/-- The glossary installed by `TerminologyManager.load_default_terminology`
(entries in Python dict insertion order). -/
def defaultTerminology : List (String × List (String × String)) :=
  [("zh-en", [("字幕", "subtitle"), ("视频", "video"), ("翻译", "translation"),
              ("语音识别", "speech recognition"), ("人工智能", "artificial intelligence")]),
   ("en-zh", [("subtitle", "字幕"), ("video", "视频"), ("translation", "翻译"),
              ("speech recognition", "语音识别"), ("artificial intelligence", "人工智能")])]

/-! ## TranslationManager (failover router) -/

/-- A translation service as `TranslationManager` sees it.  `translate_single`
returning `none` models the call raising; `translate_batch` never raises on
the studied paths (`TranslatorInterface.translate_batch` converts per-item
failures into low-confidence results). -/
structure Provider where
  is_available : Bool
  translate_single : TranslationRequest → Option TranslationResult
  translate_batch : List TranslationRequest → List TranslationResult

/-- `FallbackTranslator.translate_single`: echoes the input with confidence
0 under the service name "fallback". -/
def fallbackResult (req : TranslationRequest) : TranslationResult :=
  { original_text := req.text
    translated_text := req.text
    source_lang := req.source_lang
    target_lang := req.target_lang
    confidence := 0
    service := "fallback"
    metadata := [("warning", "No translation service available")] }

/-- The `FallbackTranslator`: always available, never fails. -/
def fallbackTranslator : Provider :=
  { is_available := true
    translate_single := fun req => some (fallbackResult req)
    translate_batch := fun reqs => reqs.map fallbackResult }

/-- State of a `TranslationManager`: the `services` dict, the priority
order, the shared cache and the terminology glossary. -/
structure TranslationManager where
  services : List (String × Provider)
  service_priority : List String
  cache : TCache
  terminology : List (String × List (String × String))

/-- Python `not text.strip()`: the text is empty or all whitespace. -/
def isBlank (text : String) : Bool :=
  text.data.all (fun c => c.isWhitespace)

/-- The short-circuit result for blank input (confidence 1, service
"passthrough"). -/
def passthroughResult (text source_lang target_lang : String) : TranslationResult :=
  { original_text := text
    translated_text := text
    source_lang := source_lang
    target_lang := target_lang
    confidence := 1
    service := "passthrough" }

/-- The cache-first loop of `TranslationManager.translate` (lines 554-560):
for each service name in priority order that is present in the services
dict, query the cache; the first hit is returned together with the name it
was found under. -/
def cacheScan (services : List (String × Provider)) (cache : TCache)
    (text source_lang target_lang : String) :
    List String → Option (TranslationResult × String) × TCache
  | [] => (none, cache)
  | name :: rest =>
    if (lookupA services name).isSome then
      match cacheGet cache text source_lang target_lang name with
      | (some r, cache') => (some (r, name), cache')
      | (none, cache') => cacheScan services cache' text source_lang target_lang rest
    else cacheScan services cache text source_lang target_lang rest

/-- The provider loop of `TranslationManager.translate` (lines 562-607):
skip names missing from the services dict, skip unavailable providers, try
`translate_single` (continuing on exception), apply terminology, cache and
return the first success; fall through to the emergency result when the
priority list is exhausted.  The returned list records the names whose
`translate_single` was actually invoked. -/
def tryServices (services : List (String × Provider))
    (terminology : List (String × List (String × String)))
    (cache : TCache) (use_cache : Bool) (now : Nat) (req : TranslationRequest) :
    List String → TranslationResult × TCache × List String
  | [] =>
    ({ original_text := req.text
       translated_text := req.text
       source_lang := req.source_lang
       target_lang := req.target_lang
       confidence := 0
       service := "emergency_fallback"
       metadata := [("error", "All services failed including fallback")] }, cache, [])
  | name :: rest =>
    match lookupA services name with
    | none => tryServices services terminology cache use_cache now req rest
    | some p =>
      if p.is_available then
        match p.translate_single req with
        | some r₀ =>
          let r := { r₀ with translated_text := (applyTerminology terminology
            r₀.translated_text req.source_lang req.target_lang) }
          let cache' := if use_cache then cacheStore cache r now else cache
          (r, cache', [name])
        | none =>
          let out := tryServices services terminology cache use_cache now req rest
          (out.1, out.2.1, name :: out.2.2)
      else tryServices services terminology cache use_cache now req rest

/-- `TranslationManager.translate`.  Besides the result and the updated
cache it returns the list of providers whose `translate_single` was
invoked (empty on the blank and cache-hit paths). -/
def translate (mgr : TranslationManager) (text source_lang target_lang : String)
    (use_cache : Bool) (now : Nat) : TranslationResult × TCache × List String :=
  if isBlank text then
    (passthroughResult text source_lang target_lang, mgr.cache, [])
  else
    let scan :=
      if use_cache then
        cacheScan mgr.services mgr.cache text source_lang target_lang mgr.service_priority
      else (none, mgr.cache)
    match scan with
    | (some (r, _), cache') => (r, cache', [])
    | (none, cache') =>
      tryServices mgr.services mgr.terminology cache' use_cache now
        ⟨text, source_lang, target_lang⟩ mgr.service_priority

/-! ## C1: behaviour when every real provider is unavailable or fails -/

/-- The value `tryServices` produces once it reaches the fallback entry. -/
def appliedFallbackResult (terminology : List (String × List (String × String)))
    (req : TranslationRequest) : TranslationResult :=
  { original_text := req.text
    translated_text := applyTerminology terminology req.text req.source_lang req.target_lang
    source_lang := req.source_lang
    target_lang := req.target_lang
    confidence := 0
    service := "fallback"
    metadata := [("warning", "No translation service available")] }

theorem tryServices_all_fail (services : List (String × Provider))
    (terminology : List (String × List (String × String)))
    (cache : TCache) (use_cache : Bool) (now : Nat) (req : TranslationRequest)
    (hfb : lookupA services "Fallback" = some fallbackTranslator)
    (hfail : ∀ name p, lookupA services name = some p → name ≠ "Fallback" →
      p.is_available = false ∨ p.translate_single req = none) :
    ∀ priority, "Fallback" ∈ priority →
      (tryServices services terminology cache use_cache now req priority).1 =
        appliedFallbackResult terminology req := by
  intro priority
  induction priority with
  | nil => intro h; cases h
  | cons name rest ih =>
    intro h
    by_cases hname : name = "Fallback"
    · subst hname
      simp [tryServices, hfb, fallbackTranslator, fallbackResult, appliedFallbackResult]
    · have hrest : "Fallback" ∈ rest := by
        cases h with
        | head => exact absurd rfl hname
        | tail _ h' => exact h'
      simp only [tryServices]
      cases hl : lookupA services name with
      | none => exact ih hrest
      | some p =>
        rcases hfail name p hl hname with hav | hfailc
        · simp [hav, ih hrest]
        · by_cases hav : p.is_available
          · simp [hav, hfailc, ih hrest]
          · simp [hav, ih hrest]

/-- The empty two-tier cache at the default memory capacity. -/
def emptyCache : TCache :=
  { max_memory_size := 1000, memory := [], accessOrder := [], persistent := [] }

/-- A DeepL service whose key does not authenticate: the availability probe
returns false, `translate_single` raises `ServiceUnavailableError` (`none`),
and a batch call yields per-item error results under the name "DeepL". -/
def deeplNoKey : Provider :=
  { is_available := false
    translate_single := fun _ => none
    translate_batch := fun reqs => reqs.map (fun req =>
      { original_text := req.text
        translated_text := req.text
        source_lang := req.source_lang
        target_lang := req.target_lang
        confidence := 0
        service := "DeepL"
        metadata := [("error", "DeepL API error")] }) }

/-- A manager as `TranslationManager.__init__` builds one whose only real
service (DeepL) is unavailable: default priority order, empty cache,
default terminology. -/
def mgrNoRealService : TranslationManager :=
  { services := [("DeepL", deeplNoKey), ("Fallback", fallbackTranslator)]
    service_priority := ["DeepL", "OpenAI", "Google", "Fallback"]
    cache := emptyCache
    terminology := defaultTerminology }

/-- C1 (counterexample): translating the non-blank text "video" from "en"
to "zh" while every real provider is unavailable does yield service
"fallback" with confidence 0, but the returned text is the terminology
substitution "视频", not the input text unchanged. -/
theorem translate_fallback_not_verbatim :
    isBlank "video" = false ∧
    deeplNoKey.is_available = false ∧
    (translate mgrNoRealService "video" "en" "zh" true 0).1.service = "fallback" ∧
    (translate mgrNoRealService "video" "en" "zh" true 0).1.confidence = 0 ∧
    (translate mgrNoRealService "video" "en" "zh" true 0).1.translated_text = "视频" ∧
    ("视频" : String) ≠ "video" := by
  exact ⟨rfl, rfl, rfl, rfl, by decide, by decide⟩

/-! ## C5: first cache hit wins over higher-priority live providers -/

/-- The value `TranslationCache.get` returns, without the LRU side
effects. -/
def cacheGetPure (c : TCache) (text source_lang target_lang service : String) :
    Option TranslationResult :=
  let key := generateKey text source_lang target_lang service
  match lookupA c.memory key with
  | some r => some r
  | none => (lookupA c.persistent key).map rowToResult

/-- Modelled from the spec's words for the cache-first rule: "iterate the
priority-ordered provider list and query the cache for each provider's key
in order — the first cache hit found (not necessarily the top-priority
provider's) is returned immediately". -/
def specFirstCacheHit (services : List (String × Provider)) (cache : TCache)
    (text source_lang target_lang : String) : List String → Option TranslationResult
  | [] => none
  | name :: rest =>
    if (lookupA services name).isSome then
      match cacheGetPure cache text source_lang target_lang name with
      | some r => some r
      | none => specFirstCacheHit services cache text source_lang target_lang rest
    else specFirstCacheHit services cache text source_lang target_lang rest

theorem cacheGet_fst (c : TCache) (text source_lang target_lang service : String) :
    (cacheGet c text source_lang target_lang service).1 =
      cacheGetPure c text source_lang target_lang service := by
  cases hm : lookupA c.memory (generateKey text source_lang target_lang service) with
  | some r => simp [cacheGet, cacheGetPure, hm]
  | none =>
    cases hp : lookupA c.persistent (generateKey text source_lang target_lang service) with
    | some row => simp [cacheGet, cacheGetPure, hm, hp]
    | none => simp [cacheGet, cacheGetPure, hm, hp]

theorem cacheGet_miss_state (c : TCache) (text source_lang target_lang service : String)
    (h : cacheGetPure c text source_lang target_lang service = none) :
    cacheGet c text source_lang target_lang service = (none, c) := by
  unfold cacheGet
  unfold cacheGetPure at h
  cases hm : lookupA c.memory (generateKey text source_lang target_lang service) with
  | some r => simp [hm] at h
  | none =>
    cases hp : lookupA c.persistent (generateKey text source_lang target_lang service) with
    | some row => simp [hm, hp] at h
    | none => simp [hm, hp]

theorem cacheScan_fst (services : List (String × Provider)) (c : TCache)
    (text source_lang target_lang : String) :
    ∀ priority, ((cacheScan services c text source_lang target_lang priority).1).map Prod.fst =
      specFirstCacheHit services c text source_lang target_lang priority := by
  intro priority
  induction priority with
  | nil => rfl
  | cons name rest ih =>
    unfold cacheScan specFirstCacheHit
    by_cases h : (lookupA services name).isSome
    · rw [if_pos h, if_pos h]
      cases hp : cacheGetPure c text source_lang target_lang name with
      | some r =>
        have := cacheGet_fst c text source_lang target_lang name
        rw [hp] at this
        rcases hgg : cacheGet c text source_lang target_lang name with ⟨o, c'⟩
        rw [hgg] at this
        simp only at this
        subst this
        simp
      | none =>
        rw [cacheGet_miss_state c text source_lang target_lang name hp]
        exact ih
    · rw [if_neg h, if_neg h]
      exact ih

/-- C5: with caching enabled and non-blank text, `translate` returns
exactly the first cache hit in priority order and invokes no provider's
translate method at all — the hypotheses place no constraint on provider
availability, so the conclusion holds even when a higher-priority provider
is untried and currently available. -/
theorem translate_first_cache_hit (mgr : TranslationManager)
    (text source_lang target_lang : String) (now : Nat) (r : TranslationResult)
    (hblank : isBlank text = false)
    (hhit : specFirstCacheHit mgr.services mgr.cache text source_lang target_lang
      mgr.service_priority = some r) :
    (translate mgr text source_lang target_lang true now).1 = r ∧
    (translate mgr text source_lang target_lang true now).2.2 = [] := by
  have hscan := cacheScan_fst mgr.services mgr.cache text source_lang target_lang
    mgr.service_priority
  rw [hhit] at hscan
  rcases hs : cacheScan mgr.services mgr.cache text source_lang target_lang
      mgr.service_priority with ⟨o, c'⟩
  rw [hs] at hscan
  cases o with
  | none => simp at hscan
  | some pr =>
    rcases pr with ⟨r', name⟩
    simp only [Option.map_some] at hscan
    injection hscan with hr
    subst hr
    unfold translate
    rw [hblank]
    simp [hs]

/-- A live DeepL stand-in: available, and translating succeeds (the wire
behaviour is abstract; the marker prefix makes its outputs recognisable). -/
def deeplLive : Provider :=
  { is_available := true
    translate_single := fun req => some
      { original_text := req.text
        translated_text := "DEEPL:" ++ req.text
        source_lang := req.source_lang
        target_lang := req.target_lang
        confidence := 95/100
        service := "DeepL"
        metadata := [] }
    translate_batch := fun reqs => reqs.map (fun req =>
      { original_text := req.text
        translated_text := "DEEPL:" ++ req.text
        source_lang := req.source_lang
        target_lang := req.target_lang
        confidence := 95/100
        service := "DeepL"
        metadata := [] }) }

/-- A persistent-tier row cached earlier under the low-priority fallback
provider's key. -/
def cachedFallbackRow : CacheRow :=
  { original_text := "hi"
    translated_text := "salut"
    source_lang := "en"
    target_lang := "fr"
    service := "Fallback"
    timestamp := 0
    confidence := some (1/2)
    metadata := none }

/-- A manager whose top-priority provider is live and untried while only
the lowest-priority provider has a cached entry for the text "hi". -/
def mgrCachedLower : TranslationManager :=
  { services := [("DeepL", deeplLive), ("Fallback", fallbackTranslator)]
    service_priority := ["DeepL", "OpenAI", "Google", "Fallback"]
    cache := { max_memory_size := 1000, memory := [], accessOrder := [],
               persistent := [(generateKey "hi" "en" "fr" "Fallback", cachedFallbackRow)] }
    terminology := defaultTerminology }

/-- C5 (witness): the theorem applied to a manager whose higher-priority
DeepL is available yet untried; the lower-priority cached entry is
returned and no provider is called. -/
theorem translate_first_cache_hit_witness :
    deeplLive.is_available = true ∧
    (translate mgrCachedLower "hi" "en" "fr" true 3).1 = rowToResult cachedFallbackRow ∧
    (translate mgrCachedLower "hi" "en" "fr" true 3).2.2 = [] := by
  have h := translate_first_cache_hit mgrCachedLower "hi" "en" "fr" 3
    (rowToResult cachedFallbackRow) rfl rfl
  exact ⟨rfl, h.1, h.2⟩

/-- C1 (amended): for every non-blank text, when the cache holds no hit
for the input under any provider's key and every configured real provider
is unavailable or fails, `translate` returns (it never raises: the model
is a total function) a result with service "fallback", confidence 0, and
translated text equal to the terminology substitution applied to the
input — which is the input unchanged exactly when no glossary entry of
the language pair matches. -/
theorem translate_all_providers_fail (mgr : TranslationManager)
    (text source_lang target_lang : String) (now : Nat)
    (hblank : isBlank text = false)
    (hmiss : specFirstCacheHit mgr.services mgr.cache text source_lang target_lang
      mgr.service_priority = none)
    (hfb : lookupA mgr.services "Fallback" = some fallbackTranslator)
    (hfbp : "Fallback" ∈ mgr.service_priority)
    (hfail : ∀ name p, lookupA mgr.services name = some p → name ≠ "Fallback" →
      p.is_available = false ∨ p.translate_single ⟨text, source_lang, target_lang⟩ = none) :
    (translate mgr text source_lang target_lang true now).1 =
      appliedFallbackResult mgr.terminology ⟨text, source_lang, target_lang⟩ := by
  have hscan := cacheScan_fst mgr.services mgr.cache text source_lang target_lang
    mgr.service_priority
  rw [hmiss] at hscan
  rcases hs : cacheScan mgr.services mgr.cache text source_lang target_lang
      mgr.service_priority with ⟨o, c'⟩
  rw [hs] at hscan
  cases o with
  | some pr => simp at hscan
  | none =>
    unfold translate
    rw [hblank]
    simp only [Bool.false_eq_true, if_false, if_true, hs]
    exact tryServices_all_fail mgr.services mgr.terminology c' true now
      ⟨text, source_lang, target_lang⟩ hfb hfail mgr.service_priority hfbp

/-- A persistent-tier row for an unrelated text, present while C1's
scenario runs. -/
def cachedOtherRow : CacheRow :=
  { original_text := "other"
    translated_text := "autre"
    source_lang := "en"
    target_lang := "fr"
    service := "Fallback"
    timestamp := 0
    confidence := some (1/2)
    metadata := none }

/-- A manager whose only real provider is unavailable and whose cache is
non-empty but holds no entry for the text being translated. -/
def mgrNoRealServiceCached : TranslationManager :=
  { services := [("DeepL", deeplNoKey), ("Fallback", fallbackTranslator)]
    service_priority := ["DeepL", "OpenAI", "Google", "Fallback"]
    cache := { max_memory_size := 1000, memory := [], accessOrder := [],
               persistent := [(generateKey "other" "en" "fr" "Fallback", cachedOtherRow)] }
    terminology := defaultTerminology }

/-- C1 (witness): the amended theorem at a manager whose cache holds an
unrelated entry (so it has no hit for the input) and whose only real
provider is unavailable, on the text "hello world" for the glossary-free
pair en→fr. -/
theorem translate_all_providers_fail_witness :
    (translate mgrNoRealServiceCached "hello world" "en" "fr" true 7).1 =
      appliedFallbackResult defaultTerminology ⟨"hello world", "en", "fr"⟩ :=
  translate_all_providers_fail mgrNoRealServiceCached "hello world" "en" "fr" 7 rfl rfl rfl
    (by decide)
    (by
      intro name p hl hne
      simp only [mgrNoRealServiceCached, lookupA_cons, lookupA_nil] at hl
      by_cases h1 : "DeepL" = name
      · rw [if_pos h1] at hl
        injection hl with h
        subst h
        exact Or.inl rfl
      · rw [if_neg h1] at hl
        by_cases h2 : "Fallback" = name
        · exact absurd h2.symm hne
        · rw [if_neg h2] at hl
          cases hl)

/-! ## Checkpoint manager (`app/utils/checkpoint.py`) -/

/-- JSON-serialisable payload values carried in `stage_data` (the
`serialize_for_json` image of what the stages store). -/
inductive Val
  | str : String → Val
  | nat : Nat → Val
  | list : List Val → Val
  | dict : List (String × Val) → Val
deriving Repr, BEq

/-- The `os.stat` facts `_get_video_hash` feeds to the hasher when the
video file exists: `st_size` and the decimal rendering `str(st_mtime)` of
the float modification time (kept as the string the source hashes). -/
structure FileStat where
  size : Nat
  mtimeStr : String
deriving Repr, DecidableEq

/-- `CheckpointManager._get_video_hash`: md5 over the concatenation of the
path, `str(size)` and `str(st_mtime)` when the file exists, md5 over the
path alone otherwise (md5 modelled as the identity on its input string,
see the header note). -/
def getVideoHash (video_path : String) (stat : Option FileStat) : String :=
  match stat with
  | some st => video_path ++ toString st.size ++ st.mtimeStr
  | none => video_path

/-- Mirror of the `ProcessingCheckpoint` dataclass. -/
structure ProcessingCheckpoint where
  video_path : String
  video_hash : String
  source_language : String
  target_language : String
  whisper_model : String
  translation_provider : String
  timestamp : Nat
  completed_stages : List String
  stage_data : List (String × List (String × Val))
  version : String := "1.0.0"

/-- Content of a stored checkpoint record as seen through `json.load` plus
dataclass construction: JSON that fails to decode, JSON that does not fit
the `ProcessingCheckpoint` fields (a `TypeError` on construction), or a
good record. -/
inductive FileContent
  | corrupt
  | badSchema
  | ok (c : ProcessingCheckpoint)

/-- Environment of one `load_checkpoint` / `save_checkpoint` call: the
record currently stored under the key derived from the input, fault flags
for the read and write I/O, the current stat of the video file and the
current time. -/
structure CkptEnv where
  record : Option FileContent
  readRaises : Bool
  writeRaises : Bool
  videoStat : Option FileStat
  now : Nat

/-- `CheckpointManager._validate_checkpoint`: the video file must exist,
the freshly computed hash must equal the stored one, and the record must be
younger than 7 days. -/
def validateCheckpoint (c : ProcessingCheckpoint) (video_path : String)
    (videoStat : Option FileStat) (now : Nat) : Bool :=
  match videoStat with
  | none => false
  | some _ =>
    if getVideoHash video_path videoStat ≠ c.video_hash then false
    else if now - c.timestamp > 7 * 24 * 3600 then false
    else true

/-- `CheckpointManager.load_checkpoint`: the returned checkpoint plus
whether the record file was deleted.  A JSON decode error deletes the file
and returns `none`; a read error or a schema failure reaches the generic
handler and returns `none` without deleting; a record that fails
validation is ignored. -/
def loadCheckpoint (video_path : String) (env : CkptEnv) :
    Option ProcessingCheckpoint × Bool :=
  match env.record with
  | none => (none, false)
  | some content =>
    if env.readRaises then (none, false)
    else
      match content with
      | .corrupt => (none, true)
      | .badSchema => (none, false)
      | .ok c =>
        if validateCheckpoint c video_path env.videoStat env.now then (some c, false)
        else (none, false)

/-- The keyword parameters of `save_checkpoint` with their defaults. -/
structure SaveKwargs where
  source_language : String := "auto"
  target_language : String := "zh-CN"
  whisper_model : String := "base"
  translation_provider : String := "openai"

/-- The fresh `ProcessingCheckpoint` that `save_checkpoint` constructs when
none exists (or the existing one is unusable). -/
def freshCheckpoint (video_path : String) (videoStat : Option FileStat)
    (kw : SaveKwargs) (now : Nat) : ProcessingCheckpoint :=
  { video_path := video_path
    video_hash := getVideoHash video_path videoStat
    source_language := kw.source_language
    target_language := kw.target_language
    whisper_model := kw.whisper_model
    translation_provider := kw.translation_provider
    timestamp := now
    completed_stages := []
    stage_data := [] }

/-- The in-place update `save_checkpoint` performs: append the stage to the
completed list if new, overwrite its payload, refresh the timestamp. -/
def updateCheckpoint (c : ProcessingCheckpoint) (stage : String)
    (payload : List (String × Val)) (now : Nat) : ProcessingCheckpoint :=
  { c with
    completed_stages :=
      if stage ∈ c.completed_stages then c.completed_stages
      else c.completed_stages ++ [stage]
    stage_data := insertA c.stage_data stage payload
    timestamp := now }

/-- `CheckpointManager.save_checkpoint`: the Python return value (False
exactly when an internal failure reached the outer handler) together with
the record afterwards on disk.  A corrupt or schema-invalid existing
record is deleted and replaced by a fresh checkpoint (lines 118-133); the
on-disk value after a failed write is modelled as the pre-write value
(after any unlink). -/
def saveCheckpoint (video_path stage : String) (payload : List (String × Val))
    (kw : SaveKwargs) (env : CkptEnv) : Bool × Option FileContent :=
  match env.record with
  | none =>
    let ckpt := updateCheckpoint (freshCheckpoint video_path env.videoStat kw env.now)
      stage payload env.now
    if env.writeRaises then (false, none) else (true, some (.ok ckpt))
  | some content =>
    if env.readRaises then (false, some content)
    else
      match content with
      | .ok c =>
        let ckpt := updateCheckpoint c stage payload env.now
        if env.writeRaises then (false, some (.ok c)) else (true, some (.ok ckpt))
      | _ =>
        let ckpt := updateCheckpoint (freshCheckpoint video_path env.videoStat kw env.now)
          stage payload env.now
        if env.writeRaises then (false, none) else (true, some (.ok ckpt))

theorem validateCheckpoint_false_iff (c : ProcessingCheckpoint) (vp : String)
    (vs : Option FileStat) (now : Nat) :
    validateCheckpoint c vp vs now = false ↔
      vs = none ∨ getVideoHash vp vs ≠ c.video_hash ∨ now - c.timestamp > 7 * 24 * 3600 := by
  cases vs with
  | none => simp [validateCheckpoint]
  | some st =>
    by_cases hh : getVideoHash vp (some st) ≠ c.video_hash
    · simp [validateCheckpoint, hh]
    · push_neg at hh
      by_cases ht : now - c.timestamp > 7 * 24 * 3600
      · simp [validateCheckpoint, hh, ht]
      · simp [validateCheckpoint, hh, ht]

/-- C3 (amended): assuming the record file is readable at the I/O level,
`load_checkpoint` returns none exactly when no record exists, the record
fails to parse (either malformed JSON or a schema mismatch), the input
video file does not exist, the stored identity differs from the freshly
computed one, or the 7-day TTL has elapsed; and the record file is deleted
exactly in the malformed-JSON case. -/
theorem loadCheckpoint_none_iff (video_path : String) (env : CkptEnv)
    (hread : env.readRaises = false) :
    ((loadCheckpoint video_path env).1 = none ↔
      (env.record = none ∨ env.record = some .corrupt ∨ env.record = some .badSchema ∨
       env.videoStat = none ∨
       (∃ c, env.record = some (.ok c) ∧ getVideoHash video_path env.videoStat ≠ c.video_hash) ∨
       (∃ c, env.record = some (.ok c) ∧ env.now - c.timestamp > 7 * 24 * 3600))) ∧
    ((loadCheckpoint video_path env).2 = true ↔ env.record = some .corrupt) := by
  cases hr : env.record with
  | none =>
    constructor
    · simp [loadCheckpoint, hr]
    · simp [loadCheckpoint, hr]
  | some content =>
    cases content with
    | corrupt =>
      constructor
      · simp [loadCheckpoint, hr, hread]
      · simp [loadCheckpoint, hr, hread]
    | badSchema =>
      constructor
      · simp [loadCheckpoint, hr, hread]
      · simp [loadCheckpoint, hr, hread]
    | ok c =>
      have hval := validateCheckpoint_false_iff c video_path env.videoStat env.now
      have hload : loadCheckpoint video_path env =
          (if validateCheckpoint c video_path env.videoStat env.now then (some c, false)
           else (none, false)) := by
        simp [loadCheckpoint, hr, hread]
      cases hvb : validateCheckpoint c video_path env.videoStat env.now with
      | false =>
        rw [hvb] at hload
        simp only [Bool.false_eq_true, if_false] at hload
        rw [hload]
        constructor
        · constructor
          · intro _
            rcases hval.mp hvb with hvs | hne | hT
            · exact Or.inr (Or.inr (Or.inr (Or.inl hvs)))
            · exact Or.inr (Or.inr (Or.inr (Or.inr (Or.inl ⟨c, rfl, hne⟩))))
            · exact Or.inr (Or.inr (Or.inr (Or.inr (Or.inr ⟨c, rfl, hT⟩))))
          · intro _; rfl
        · constructor
          · intro h; cases h
          · intro h; injection h with h'; cases h'
      | true =>
        rw [hvb] at hload
        simp only [if_true] at hload
        rw [hload]
        constructor
        · constructor
          · intro h; cases h
          · rintro (h | h | h | hvs | ⟨c', hc', hne⟩ | ⟨c', hc', hT⟩)
            · cases h
            · injection h with h'; cases h'
            · injection h with h'; cases h'
            · have hcon : validateCheckpoint c video_path env.videoStat env.now = false :=
                hval.mpr (Or.inl hvs)
              rw [hvb] at hcon; cases hcon
            · injection hc' with h'; injection h' with h''
              subst h''
              have hcon : validateCheckpoint c video_path env.videoStat env.now = false :=
                hval.mpr (Or.inr (Or.inl hne))
              rw [hvb] at hcon; cases hcon
            · injection hc' with h'; injection h' with h''
              subst h''
              have hcon : validateCheckpoint c video_path env.videoStat env.now = false :=
                hval.mpr (Or.inr (Or.inr hT))
              rw [hvb] at hcon; cases hcon
        · constructor
          · intro h; cases h
          · intro h; injection h with h'; cases h'

/-- A checkpoint that was saved while the video file was absent (possible,
since `save_checkpoint` does not require the file to exist): the stored
hash is the path-only hash. -/
def orphanCheckpoint : ProcessingCheckpoint :=
  { video_path := "a.mp4"
    video_hash := "a.mp4"
    source_language := "auto"
    target_language := "zh-CN"
    whisper_model := "base"
    translation_provider := "openai"
    timestamp := 0
    completed_stages := ["audio_extraction"]
    stage_data := [("audio_extraction", [("audio_path", Val.str "x.wav")])] }

/-- The environment in which that record is loaded back: the record is
intact, the identities match, the TTL has not elapsed — but the video file
still does not exist. -/
def orphanEnv : CkptEnv :=
  { record := some (.ok orphanCheckpoint)
    readRaises := false
    writeRaises := false
    videoStat := none
    now := 3600 }

/-- C3 (counterexample): a record exists, parses, carries exactly the
freshly computed identity and is far younger than the 7-day TTL, yet
`load_checkpoint` returns none (and deletes nothing), because the video
file does not exist — a condition outside the claim's four cases. -/
theorem loadCheckpoint_missing_video_none :
    orphanEnv.record = some (.ok orphanCheckpoint) ∧
    getVideoHash "a.mp4" orphanEnv.videoStat = orphanCheckpoint.video_hash ∧
    orphanEnv.now - orphanCheckpoint.timestamp ≤ 7 * 24 * 3600 ∧
    loadCheckpoint "a.mp4" orphanEnv = (none, false) := by
  exact ⟨rfl, rfl, by decide, rfl⟩

/-- C3 (witness): the amended biconditional applied to the concrete
environment above — the disjunct that fires is the missing-video one. -/
theorem loadCheckpoint_none_iff_witness :
    (loadCheckpoint "a.mp4" orphanEnv).1 = none ∧
    (loadCheckpoint "a.mp4" orphanEnv).2 ≠ true :=
  ⟨(loadCheckpoint_none_iff "a.mp4" orphanEnv rfl).1.mpr
      (Or.inr (Or.inr (Or.inr (Or.inl rfl)))),
   fun h => by
    have := (loadCheckpoint_none_iff "a.mp4" orphanEnv rfl).2.mp h
    injection this with h'
    cases h'⟩

/-! ## C8: identity separation by size and modification time -/

/-- C8 (counterexample): two inputs with the same path that differ in size
(12 vs 1) and in modification time ("3.0" vs "23.0") hash the very same
byte string "a123.0", so they produce the same identity even under a
collision-free hash. -/
theorem getVideoHash_collision :
    (⟨12, "3.0"⟩ : FileStat) ≠ ⟨1, "23.0"⟩ ∧
    getVideoHash "a" (some ⟨12, "3.0"⟩) = getVideoHash "a" (some ⟨1, "23.0"⟩) := by
  exact ⟨by decide, by decide⟩

/-- C8 (amended): the identity separates two inputs with the same path
whenever their decimal size strings have the same length and the size
strings or the mtime strings differ — the original claim holds except when
the unseparated size/mtime concatenation is ambiguous (best-effort, as the
spec itself notes). -/
theorem getVideoHash_separates (p : String) (st₁ st₂ : FileStat)
    (hlen : (toString st₁.size).length = (toString st₂.size).length)
    (hne : toString st₁.size ≠ toString st₂.size ∨ st₁.mtimeStr ≠ st₂.mtimeStr) :
    getVideoHash p (some st₁) ≠ getVideoHash p (some st₂) := by
  intro h
  unfold getVideoHash at h
  have hdata : p.data ++ ((toString st₁.size).data ++ st₁.mtimeStr.data) =
      p.data ++ ((toString st₂.size).data ++ st₂.mtimeStr.data) := by
    have h' := congrArg String.data h
    simpa [String.data_append, List.append_assoc] using h'
  have htail := List.append_cancel_left hdata
  have hlen' : (toString st₁.size).data.length = (toString st₂.size).data.length := hlen
  obtain ⟨hs, hm⟩ := List.append_inj htail hlen'
  rcases hne with hne | hne
  · exact hne (by apply String.ext; exact hs)
  · exact hne (by apply String.ext; exact hm)

/-- C8 (witness): the amended theorem at two stats with equal-length size
strings differing in size. -/
theorem getVideoHash_separates_witness :
    getVideoHash "a" (some ⟨10, "3.0"⟩) ≠ getVideoHash "a" (some ⟨12, "3.0"⟩) :=
  getVideoHash_separates "a" ⟨10, "3.0"⟩ ⟨12, "3.0"⟩ rfl (Or.inl (by decide))

/-! ## C10: totality of save/load at the public interface -/

/-- C10 (amended): `save_checkpoint` returns False — rather than raising —
exactly when the final write fails or when reading an existing record
raises an I/O error; a malformed existing record is healed (deleted and
replaced), not reported as False.  `load_checkpoint` returns None — rather
than raising — on every internal failure (read error, malformed JSON,
schema mismatch). -/
theorem checkpoint_io_totality (video_path stage : String)
    (payload : List (String × Val)) (kw : SaveKwargs) (env : CkptEnv) :
    ((saveCheckpoint video_path stage payload kw env).1 = false ↔
      env.writeRaises = true ∨ (env.record.isSome = true ∧ env.readRaises = true)) ∧
    (env.readRaises = true ∨ env.record = some .corrupt ∨ env.record = some .badSchema →
      (loadCheckpoint video_path env).1 = none) := by
  constructor
  · cases hr : env.record with
    | none =>
      cases hw : env.writeRaises with
      | false => simp [saveCheckpoint, hr, hw]
      | true => simp [saveCheckpoint, hr, hw]
    | some content =>
      cases hrd : env.readRaises with
      | true => simp [saveCheckpoint, hr, hrd]
      | false =>
        cases content with
        | ok c =>
          cases hw : env.writeRaises with
          | false => simp [saveCheckpoint, hr, hrd, hw]
          | true => simp [saveCheckpoint, hr, hrd, hw]
        | corrupt =>
          cases hw : env.writeRaises with
          | false => simp [saveCheckpoint, hr, hrd, hw]
          | true => simp [saveCheckpoint, hr, hrd, hw]
        | badSchema =>
          cases hw : env.writeRaises with
          | false => simp [saveCheckpoint, hr, hrd, hw]
          | true => simp [saveCheckpoint, hr, hrd, hw]
  · rintro (hrd | hc | hc)
    · cases hr : env.record with
      | none => simp [loadCheckpoint, hr]
      | some content => simp [loadCheckpoint, hr, hrd]
    · cases hrd : env.readRaises with
      | true => simp [loadCheckpoint, hc, hrd]
      | false => simp [loadCheckpoint, hc, hrd]
    · cases hrd : env.readRaises with
      | true => simp [loadCheckpoint, hc, hrd]
      | false => simp [loadCheckpoint, hc, hrd]

/-- An environment whose stored record is malformed JSON while both I/O
operations succeed. -/
def healEnv : CkptEnv :=
  { record := some .corrupt
    readRaises := false
    writeRaises := false
    videoStat := some ⟨100, "5.0"⟩
    now := 42 }

/-- C10 (counterexample): with a malformed existing record (an internal
failure by the claim's own list) and working I/O, `save_checkpoint`
self-heals and returns True, not False. -/
theorem saveCheckpoint_heals_returns_true :
    healEnv.record = some .corrupt ∧
    (saveCheckpoint "v.mp4" "audio_extraction" [] {} healEnv).1 = true := by
  exact ⟨rfl, rfl⟩

/-- An environment whose final write raises. -/
def writeFailEnv : CkptEnv :=
  { record := none, readRaises := false, writeRaises := true, videoStat := none, now := 0 }

/-- An environment whose record read raises an I/O error. -/
def readFailEnv : CkptEnv :=
  { record := some .corrupt, readRaises := true, writeRaises := false,
    videoStat := none, now := 0 }

/-- C10 (witness): the amended characterisation applied to a concrete
environment whose write fails and one whose read fails. -/
theorem checkpoint_io_totality_witness :
    (saveCheckpoint "v.mp4" "audio_extraction" [] {} writeFailEnv).1 = false ∧
    (loadCheckpoint "v.mp4" readFailEnv).1 = none :=
  ⟨(checkpoint_io_totality "v.mp4" "audio_extraction" [] {} writeFailEnv).1.mpr (Or.inl rfl),
   (checkpoint_io_totality "v.mp4" "audio_extraction" [] {} readFailEnv).2 (Or.inl rfl)⟩

/-! ## Retry executor (`app/utils/recovery_manager.py`) -/

inductive RetryStrategy
  | immediate
  | linear
  | exponential
  | custom
deriving Repr, DecidableEq

/-- A Python exception as `RetryManager.should_retry` inspects one: an
identifying tag, whether it is a `NonRetryableError`, and whether it is an
instance of the configured `retry_on_exceptions` tuple. -/
structure PyExn where
  tag : String
  nonRetryable : Bool
  matchesRetryOn : Bool := true
deriving Repr, DecidableEq

/-- Mirror of the `RetryConfig` dataclass (delays as exact rationals). -/
structure RetryConfig where
  max_attempts : Nat := 3
  strategy : RetryStrategy := .exponential
  base_delay : ℚ := 1
  max_delay : ℚ := 60
  backoff_factor : ℚ := 2
  should_retry : Option (PyExn → Bool) := none

/-- `RetryManager.calculate_delay`; its argument is the 1-based number of
the attempt that just failed (line 150 passes `attempt + 1`).  The
immediate strategy returns 0 before the cap is applied. -/
def calculateDelay (cfg : RetryConfig) (attempt : Nat) : ℚ :=
  match cfg.strategy with
  | .immediate => 0
  | .linear => min (cfg.base_delay * attempt) cfg.max_delay
  | .exponential => min (cfg.base_delay * cfg.backoff_factor ^ attempt) cfg.max_delay
  | .custom => min cfg.base_delay cfg.max_delay

/-- `RetryManager.should_retry` (attempt-count check, `NonRetryableError`
check, `retry_on_exceptions` check, then the custom predicate if any). -/
def shouldRetryExn (cfg : RetryConfig) (e : PyExn) (attempt : Nat) : Bool :=
  if attempt ≥ cfg.max_attempts then false
  else if e.nonRetryable then false
  else if !e.matchesRetryOn then false
  else
    match cfg.should_retry with
    | some f => f e
    | none => true

/-- Outcome of `retry_with_config` around an operation: the value or the
re-raised exception, together with how many times the operation was called
and the argument of each `time.sleep` in order. -/
inductive RetryOutcome (α : Type)
  | ok (a : α) (attempts : Nat) (delays : List ℚ)
  | raised (e : PyExn) (attempts : Nat) (delays : List ℚ)
deriving Repr, DecidableEq

/-- The `for attempt in range(max_attempts)` loop of `retry_with_config`.
`op n` is the behaviour of the wrapped call on its (1-based) n-th
invocation; `fuel` is the number of loop iterations left and `attempt` the
0-based loop counter.  Falling out of the loop reaches the final
`raise Exception(...)` at line 158. -/
def retryLoop {α : Type} (cfg : RetryConfig) (op : Nat → Except PyExn α) :
    Nat → Nat → List ℚ → RetryOutcome α
  | 0, attempt, delays => .raised ⟨"Exception", false, true⟩ attempt delays
  | fuel + 1, attempt, delays =>
    match op (attempt + 1) with
    | .ok a => .ok a (attempt + 1) delays
    | .error e =>
      if shouldRetryExn cfg e (attempt + 1) then
        if attempt < cfg.max_attempts - 1 then
          retryLoop cfg op fuel (attempt + 1) (delays ++ [calculateDelay cfg (attempt + 1)])
        else .raised e (attempt + 1) delays
      else .raised e (attempt + 1) delays

/-- `retry_with_config` applied to an operation. -/
def retryWithConfig {α : Type} (cfg : RetryConfig) (op : Nat → Except PyExn α) :
    RetryOutcome α :=
  retryLoop cfg op cfg.max_attempts 0 []

/-- The backoff formula of the amended claim C4, stated independently of
`calculateDelay`: the delay before the retry that follows failed attempt
`n` (1-based). -/
def backoffDelay (cfg : RetryConfig) (n : Nat) : ℚ :=
  match cfg.strategy with
  | .immediate => 0
  | .linear => min (cfg.base_delay * n) cfg.max_delay
  | .exponential => min (cfg.base_delay * cfg.backoff_factor ^ n) cfg.max_delay
  | .custom => min cfg.base_delay cfg.max_delay

theorem calculateDelay_eq_backoffDelay (cfg : RetryConfig) (n : Nat) :
    calculateDelay cfg n = backoffDelay cfg n := by
  cases h : cfg.strategy <;> simp [calculateDelay, backoffDelay, h]

theorem retryLoop_always_fail {α : Type} (cfg : RetryConfig)
    (op : Nat → Except PyExn α) (e : Nat → PyExn)
    (hcustom : cfg.should_retry = none)
    (hop : ∀ n, op n = .error (e n))
    (hnr : ∀ n, (e n).nonRetryable = false)
    (hmr : ∀ n, (e n).matchesRetryOn = true) :
    ∀ fuel attempt delays, 1 ≤ fuel → fuel + attempt = cfg.max_attempts →
      retryLoop cfg op fuel attempt delays =
        .raised (e cfg.max_attempts) cfg.max_attempts
          (delays ++ (List.range (fuel - 1)).map (fun k => calculateDelay cfg (attempt + k + 1))) := by
  intro fuel
  induction fuel with
  | zero => intro attempt delays h1 _; cases h1
  | succ f ih =>
    intro attempt delays _ htot
    rw [retryLoop]
    simp only [hop (attempt + 1)]
    cases f with
    | zero =>
      have hmaxeq : attempt + 1 = cfg.max_attempts := by omega
      have hsr : shouldRetryExn cfg (e (attempt + 1)) (attempt + 1) = false := by
        unfold shouldRetryExn
        rw [if_pos (by omega)]
      rw [hsr]
      simp [hmaxeq]
    | succ f' =>
      have hsr : shouldRetryExn cfg (e (attempt + 1)) (attempt + 1) = true := by
        unfold shouldRetryExn
        rw [if_neg (by omega), if_neg (by rw [hnr]; exact Bool.false_ne_true),
          if_neg (by rw [hmr]; simp), hcustom]
      rw [hsr]
      simp only [if_true]
      rw [if_pos (by omega)]
      rw [ih (attempt + 1) (delays ++ [calculateDelay cfg (attempt + 1)]) (by omega) (by omega)]
      rw [List.append_assoc, List.singleton_append, Nat.add_sub_cancel, Nat.add_sub_cancel,
        List.range_succ_eq_map, List.map_cons, List.map_map]
      congr 1
      congr 1
      congr 1
      apply List.map_congr_left
      intro k _
      simp only [Function.comp_apply]
      congr 1
      omega

/-- C4 (amended): for maxAttempts ≥ 1 and the default retryable-exception
configuration, an operation that raises a retryable exception on every
call is attempted exactly maxAttempts times and the last exception is
re-raised, the delay before the retry following failed attempt n (1-based)
being 0 for immediate, min(baseDelay·n, maxDelay) for linear and
min(baseDelay·multiplier^n, maxDelay) for exponential — one multiplier
power higher than the claim stated; an operation raising a non-retryable
exception is attempted exactly once and re-raised with no delay. -/
theorem retry_bound {α : Type} (cfg : RetryConfig) (op : Nat → Except PyExn α)
    (hmax : 1 ≤ cfg.max_attempts) (hcustom : cfg.should_retry = none) :
    (∀ e : Nat → PyExn, (∀ n, op n = .error (e n)) →
      (∀ n, (e n).nonRetryable = false) → (∀ n, (e n).matchesRetryOn = true) →
      retryWithConfig cfg op =
        .raised (e cfg.max_attempts) cfg.max_attempts
          ((List.range (cfg.max_attempts - 1)).map (fun k => backoffDelay cfg (k + 1)))) ∧
    (∀ e₀ : PyExn, op 1 = .error e₀ → e₀.nonRetryable = true →
      retryWithConfig cfg op = .raised e₀ 1 []) := by
  constructor
  · intro e hop hnr hmr
    unfold retryWithConfig
    rw [retryLoop_always_fail cfg op e hcustom hop hnr hmr cfg.max_attempts 0 [] hmax
      (by omega)]
    congr 1
    simp only [List.nil_append]
    apply List.map_congr_left
    intro k _
    rw [Nat.zero_add, calculateDelay_eq_backoffDelay]
  · intro e₀ hop hnr
    unfold retryWithConfig
    rcases hfuel : cfg.max_attempts with _ | f
    · omega
    · rw [retryLoop]
      simp only [hop]
      have hsr : shouldRetryExn cfg e₀ (0 + 1) = false := by
        unfold shouldRetryExn
        by_cases hm1 : 0 + 1 ≥ cfg.max_attempts
        · rw [if_pos hm1]
        · rw [if_neg hm1, if_pos hnr]
      rw [hsr]
      simp

/-- A retryable network exception. -/
def svcUnavailable : PyExn := ⟨"ServiceUnavailableError", false, true⟩

/-- An operation that raises that exception on every call. -/
def alwaysUnavailable : Nat → Except PyExn Unit := fun _ => .error svcUnavailable

/-- An exponential two-attempt configuration (base 1, multiplier 2,
cap 60). -/
def expCfg : RetryConfig :=
  { max_attempts := 2, strategy := .exponential, base_delay := 1, max_delay := 60,
    backoff_factor := 2, should_retry := none }

/-- C4 (counterexample): under the exponential strategy the delay slept
after failed attempt 1 is base·multiplier^1 = 2, not the claim's
base·multiplier^(1−1) = 1 — `calculate_delay` is called with the 1-based
failed-attempt number and does not subtract one. -/
theorem retry_exponential_delay_off_by_one :
    retryWithConfig expCfg alwaysUnavailable = .raised svcUnavailable 2 [2] ∧
    (2 : ℚ) ≠ 1 * 2 ^ (1 - 1) := by
  constructor
  · norm_num [retryWithConfig, retryLoop, alwaysUnavailable, expCfg, svcUnavailable,
      shouldRetryExn, calculateDelay]
  · norm_num

/-- A linear three-attempt configuration. -/
def linCfg : RetryConfig :=
  { max_attempts := 3, strategy := .linear, base_delay := 1, max_delay := 60,
    backoff_factor := 2, should_retry := none }

/-- A non-retryable credential failure. -/
def credExn : PyExn := ⟨"NonRetryableError", true, true⟩

/-- An operation that raises the non-retryable exception on every call. -/
def failsNonRetryable : Nat → Except PyExn Unit := fun _ => .error credExn

/-- C4 (witness): the amended theorem at the linear three-attempt
configuration (three calls, then re-raise, delays from the stated formula)
and at a non-retryable failure (exactly one call, no delay). -/
theorem retry_bound_witness :
    retryWithConfig linCfg alwaysUnavailable =
      .raised svcUnavailable 3 ((List.range 2).map (fun k => backoffDelay linCfg (k + 1))) ∧
    retryWithConfig linCfg failsNonRetryable = .raised credExn 1 [] :=
  ⟨(retry_bound linCfg alwaysUnavailable (by decide) rfl).1 (fun _ => svcUnavailable)
      (fun _ => rfl) (fun _ => rfl) (fun _ => rfl),
   (retry_bound linCfg failsNonRetryable (by decide) rfl).2 credExn rfl rfl⟩

/-! ## Legacy persistent cache (`app/core/translation_original.py`) -/

/-- State of the legacy `TranslationCache`: a single persistent (SQLite)
tier plus the configured maximum entry count `max_size`. -/
structure OCache where
  max_size : Nat
  persistent : List (String × CacheRow)
deriving Repr

/-- Timestamp order used by the pruning `ORDER BY timestamp ASC`. -/
def tsLE (a b : String × CacheRow) : Bool :=
  a.2.timestamp ≤ b.2.timestamp

/-- `TranslationCache._prune_if_needed` of the legacy module: when the
entry count exceeds `max_size`, delete the `count - int(max_size * 0.8)`
oldest-by-timestamp rows in a single statement.  `int(max_size * 0.8)` is
modelled as the exact `max_size * 4 / 5` (floor); rows with equal
timestamps are ordered arbitrarily by SQLite, here by the stable sort. -/
def pruneIfNeeded (c : OCache) : OCache :=
  let count := c.persistent.length
  if count > c.max_size then
    let to_remove := count - c.max_size * 4 / 5
    { c with persistent := (c.persistent.mergeSort tsLE).drop to_remove }
  else c

/-- The row the legacy `store` writes (`INSERT OR REPLACE`, timestamp
refreshed to now). -/
def resultToRow (r : TranslationResult) (now : Nat) : CacheRow :=
  { original_text := r.original_text
    translated_text := r.translated_text
    source_lang := r.source_lang
    target_lang := r.target_lang
    service := r.service
    timestamp := now
    confidence := some r.confidence
    metadata := if r.metadata = [] then none else some r.metadata }

/-- The legacy table state right after the `INSERT OR REPLACE` of `store`,
before `_prune_if_needed` runs. -/
def ocacheInsert (c : OCache) (r : TranslationResult) (now : Nat) : OCache :=
  { c with persistent := (insertA c.persistent
      (generateKey r.original_text r.source_lang r.target_lang r.service)
      (resultToRow r now)) }

/-- `TranslationCache.store` of the legacy module: insert-or-replace, then
prune if needed. -/
def ocacheStore (c : OCache) (r : TranslationResult) (now : Nat) : OCache :=
  pruneIfNeeded (ocacheInsert c r now)

/-- A result for the text "a". -/
def resA : TranslationResult :=
  { original_text := "a", translated_text := "a1", source_lang := "en",
    target_lang := "fr", confidence := 1/2, service := "DeepL", metadata := [] }

/-- A result for the text "b". -/
def resB : TranslationResult :=
  { original_text := "b", translated_text := "b1", source_lang := "en",
    target_lang := "fr", confidence := 1/2, service := "DeepL", metadata := [] }

/-- An empty refactored cache whose configured capacity is 1. -/
def tinyCache : TCache :=
  { max_memory_size := 1, memory := [], accessOrder := [], persistent := [] }

/-- The refactored cache after two stores of distinct entries into an
instance whose configured capacity is 1. -/
def refactoredTwoStores : TCache :=
  cacheStore (cacheStore tinyCache resA 1) resB 2

/-- C7 (counterexample): in the refactored `TranslationCache` — the one
`TranslationManager` actually uses — the persistent tier has no pruning at
all: after the second store its entry count (2) exceeds the configured
capacity (1), yet both rows are still present and nothing was deleted. -/
theorem refactored_store_never_prunes :
    refactoredTwoStores.max_memory_size = 1 ∧
    refactoredTwoStores.persistent.length = 2 ∧
    (lookupA refactoredTwoStores.persistent (generateKey "a" "en" "fr" "DeepL")).isSome = true ∧
    (lookupA refactoredTwoStores.persistent (generateKey "b" "en" "fr" "DeepL")).isSome = true := by
  refine ⟨rfl, rfl, ?_, ?_⟩ <;> rfl

theorem tsLE_trans (a b c : String × CacheRow) :
    tsLE a b = true → tsLE b c = true → tsLE a c = true := by
  unfold tsLE
  intro h₁ h₂
  simp only [decide_eq_true_eq] at h₁ h₂ ⊢
  omega

theorem tsLE_total (a b : String × CacheRow) : (tsLE a b || tsLE b a) = true := by
  unfold tsLE
  rcases Nat.le_total a.2.timestamp b.2.timestamp with h | h <;> simp [h]

/-- C7 (amended): the described pruning holds for the legacy
`translation_original.TranslationCache` (the refactored cache used by
`TranslationManager` never prunes — see the counterexample): whenever the
insert of `store` makes the entry count exceed `max_size`, a batch of
oldest-by-timestamp rows is deleted so that exactly `int(max_size * 0.8)`
entries remain, every deleted row is at least as old as every surviving
row, and nothing else is removed (the deleted batch plus the survivors is
a permutation of the pre-prune table). -/
theorem ocacheStore_prunes (c : OCache) (r : TranslationResult) (now : Nat)
    (hover : (ocacheInsert c r now).persistent.length > c.max_size) :
    ∃ deleted,
      (ocacheStore c r now).persistent.length = c.max_size * 4 / 5 ∧
      deleted.length = (ocacheInsert c r now).persistent.length - c.max_size * 4 / 5 ∧
      (deleted ++ (ocacheStore c r now).persistent).Perm (ocacheInsert c r now).persistent ∧
      (∀ d ∈ deleted, ∀ k ∈ (ocacheStore c r now).persistent,
        d.2.timestamp ≤ k.2.timestamp) := by
  set before := (ocacheInsert c r now).persistent with hbefore
  have hm : c.max_size * 4 / 5 ≤ c.max_size := by
    calc c.max_size * 4 / 5 ≤ c.max_size * 5 / 5 :=
          Nat.div_le_div_right (Nat.mul_le_mul_left _ (by omega))
    _ = c.max_size := Nat.mul_div_cancel _ (by omega)
  set to_remove := before.length - c.max_size * 4 / 5 with htr
  have hstore : (ocacheStore c r now).persistent = (before.mergeSort tsLE).drop to_remove := by
    have hms : (ocacheInsert c r now).max_size = c.max_size := rfl
    simp only [ocacheStore, pruneIfNeeded]
    rw [← hbefore, hms, if_pos hover]
  have hperm : (before.mergeSort tsLE).Perm before := List.mergeSort_perm before tsLE
  have hlen : (before.mergeSort tsLE).length = before.length := hperm.length_eq
  have hsorted := List.sorted_mergeSort tsLE_trans tsLE_total before
  refine ⟨(before.mergeSort tsLE).take to_remove, ?_, ?_, ?_, ?_⟩
  · rw [hstore, List.length_drop, hlen, htr]
    omega
  · rw [List.length_take, hlen, htr]
    omega
  · rw [hstore, List.take_append_drop]
    exact hperm
  · intro d hd k hk
    rw [hstore] at hk
    have hpw : List.Pairwise (fun a b => tsLE a b = true)
        ((before.mergeSort tsLE).take to_remove ++ (before.mergeSort tsLE).drop to_remove) := by
      rw [List.take_append_drop]
      exact hsorted
    have := (List.pairwise_append.mp hpw).2.2 d hd k hk
    unfold tsLE at this
    simpa using this

/-- A small legacy cache over capacity: `max_size` 2 with three rows after
the insert. -/
def legacySmall : OCache :=
  { max_size := 2
    persistent :=
      [("k1:en:fr:DeepL",
        { original_text := "k1", translated_text := "v1", source_lang := "en",
          target_lang := "fr", service := "DeepL", timestamp := 10,
          confidence := some 1, metadata := none }),
       ("k2:en:fr:DeepL",
        { original_text := "k2", translated_text := "v2", source_lang := "en",
          target_lang := "fr", service := "DeepL", timestamp := 5,
          confidence := some 1, metadata := none })] }

/-- A third result pushing the legacy cache over capacity. -/
def resK3 : TranslationResult :=
  { original_text := "k3", translated_text := "v3", source_lang := "en",
    target_lang := "fr", confidence := 1, service := "DeepL", metadata := [] }

/-- C7 (witness): the amended theorem at the concrete legacy cache: the
third store pushes the count to 3 > 2, and pruning leaves exactly
`int(2 * 0.8) = 1` entry. -/
theorem ocacheStore_prunes_witness :
    (ocacheInsert legacySmall resK3 20).persistent.length > legacySmall.max_size ∧
    (ocacheStore legacySmall resK3 20).persistent.length = legacySmall.max_size * 4 / 5 := by
  have hover : (ocacheInsert legacySmall resK3 20).persistent.length > legacySmall.max_size := by
    simp [ocacheInsert, legacySmall, resK3, insertA, eraseA, resultToRow, generateKey,
      List.filter]
  exact ⟨hover, (ocacheStore_prunes legacySmall resK3 20 hover).choose_spec.1⟩

/-! ## Stage orchestrator (`app/gui/improved_processing.py`) -/

/-- Observable events of one `ImprovedProcessingWorker.run`: progress
signals, invocations of a stage's core work, and checkpoint saves (log
signals are omitted as pure diagnostics). -/
inductive Event
  | progress (stage : Nat) (status : String) (pct : Nat)
  | call (stage : String) (input : Option Val)
  | save (stage : String) (payload : List (String × Val))
deriving Repr

/-- The abstract core computations of the four stages (the calls the
wrappers make into the audio / speech / translation / subtitle modules),
assumed to succeed; their behaviour is outside the orchestration layer. -/
structure StageFns where
  extract : Option Val → Val
  recognize : Option Val → Val
  translateSeg : Option Val → Val
  subtitles : Option Val → Val

/-- Common success-path shape of the four stage wrappers
(`extract_audio_stage`, `speech_recognition_stage`, `translation_stage`,
`subtitle_generation_stage`) with the cancellation flag clear: emit
progress(idx, "processing", 10), run the core function (the per-stage
timeout cannot expire in this untimed model), save the checkpoint payload
`{field: output}`, emit progress(idx, "complete", 100). -/
def runStageFresh (name : String) (idx : Nat) (field : String)
    (fn : Option Val → Val) (input : Option Val) : List Event × Val :=
  ([.progress idx "processing" 10, .call name input,
    .save name [(field, fn input)], .progress idx "complete" 100], fn input)

/-- `get_stage_data(video_path, name)` followed by `.get(field)`: the
persisted payload field handed to the next stage on the resume path. -/
def persistedPayload (sd : List (String × List (String × Val)))
    (name field : String) : Option Val :=
  (lookupA sd name).bind (fun p => lookupA p field)

/-- The resume branch of `run` for a completed stage: restore the persisted
payload field and emit the 100%-progress event for UI continuity. -/
def runStageResume (sd : List (String × List (String × Val)))
    (name : String) (idx : Nat) (field : String) : List Event × Option Val :=
  ([.progress idx "complete" 100], persistedPayload sd name field)

/-- One stage of `run`: skip and restore when the stage name is in the
checkpoint's completed list, else execute the wrapper. -/
def runStage (completed : List String) (sd : List (String × List (String × Val)))
    (name : String) (idx : Nat) (field : String)
    (fn : Option Val → Val) (input : Option Val) : List Event × Option Val :=
  if name ∈ completed then runStageResume sd name idx field
  else
    let out := runStageFresh name idx field fn input
    (out.1, some out.2)

/-- `ImprovedProcessingWorker.run` on the success path with the
cancellation flag never set: the four stages in their fixed order, each
fed the previous stage's output, with `completed` and `sd` taken from the
loaded checkpoint (empty when none). -/
def runPipeline (completed : List String) (sd : List (String × List (String × Val)))
    (fns : StageFns) (video_path : String) : List Event :=
  let s1 := runStage completed sd "audio_extraction" 1 "audio_path" fns.extract
    (some (.str video_path))
  let s2 := runStage completed sd "speech_recognition" 2 "recognition_result"
    fns.recognize s1.2
  let s3 := runStage completed sd "text_translation" 3 "translation_result"
    fns.translateSeg s2.2
  let s4 := runStage completed sd "subtitle_generation" 4 "subtitle_path"
    fns.subtitles s3.2
  s1.1 ++ s2.1 ++ s3.1 ++ s4.1

/-- The orchestrator's stage table: name, 1-based progress index and
checkpoint payload field, in execution order. -/
def stageTable : List (String × Nat × String) :=
  [("audio_extraction", 1, "audio_path"),
   ("speech_recognition", 2, "recognition_result"),
   ("text_translation", 3, "translation_result"),
   ("subtitle_generation", 4, "subtitle_path")]

/-- The successor of a stage in the fixed order. -/
def nextStage : String → Option (String × Nat × String)
  | "audio_extraction" => some ("speech_recognition", 2, "recognition_result")
  | "speech_recognition" => some ("text_translation", 3, "translation_result")
  | "text_translation" => some ("subtitle_generation", 4, "subtitle_path")
  | _ => none

theorem runStage_resume_events (completed : List String)
    (sd : List (String × List (String × Val))) (name : String) (idx : Nat) (field : String)
    (fn : Option Val → Val) (input : Option Val) (h : name ∈ completed) :
    (runStage completed sd name idx field fn input).1 = [.progress idx "complete" 100] := by
  simp [runStage, runStageResume, h]

theorem runStage_resume_val (completed : List String)
    (sd : List (String × List (String × Val))) (name : String) (idx : Nat) (field : String)
    (fn : Option Val → Val) (input : Option Val) (h : name ∈ completed) :
    (runStage completed sd name idx field fn input).2 = persistedPayload sd name field := by
  simp [runStage, runStageResume, h]

theorem runStage_fresh_events (completed : List String)
    (sd : List (String × List (String × Val))) (name : String) (idx : Nat) (field : String)
    (fn : Option Val → Val) (input : Option Val) (h : name ∉ completed) :
    (runStage completed sd name idx field fn input).1 =
      [.progress idx "processing" 10, .call name input,
       .save name [(field, fn input)], .progress idx "complete" 100] := by
  simp [runStage, runStageFresh, h]

theorem runStage_call_name (completed : List String)
    (sd : List (String × List (String × Val))) (name : String) (idx : Nat) (field : String)
    (fn : Option Val → Val) (input : Option Val) (n : String) (v : Option Val)
    (hm : Event.call n v ∈ (runStage completed sd name idx field fn input).1) : n = name := by
  by_cases h : name ∈ completed
  · rw [runStage_resume_events completed sd name idx field fn input h] at hm
    simp at hm
  · rw [runStage_fresh_events completed sd name idx field fn input h] at hm
    simp at hm
    exact hm.1

theorem runStage_call_ne (completed : List String)
    (sd : List (String × List (String × Val))) (name : String) (idx : Nat) (field : String)
    (fn : Option Val → Val) (input : Option Val) (n : String) (v : Option Val)
    (hne : n ≠ name) : Event.call n v ∉ (runStage completed sd name idx field fn input).1 :=
  fun hm => hne (runStage_call_name completed sd name idx field fn input n v hm)

theorem runStage_call_none_completed (completed : List String)
    (sd : List (String × List (String × Val))) (name : String) (idx : Nat) (field : String)
    (fn : Option Val → Val) (input : Option Val) (h : name ∈ completed) (v : Option Val) :
    Event.call name v ∉ (runStage completed sd name idx field fn input).1 := by
  rw [runStage_resume_events completed sd name idx field fn input h]
  simp

theorem runStage_progress_mem (completed : List String)
    (sd : List (String × List (String × Val))) (name : String) (idx : Nat) (field : String)
    (fn : Option Val → Val) (input : Option Val) :
    Event.progress idx "complete" 100 ∈ (runStage completed sd name idx field fn input).1 := by
  by_cases h : name ∈ completed
  · rw [runStage_resume_events completed sd name idx field fn input h]
    simp
  · rw [runStage_fresh_events completed sd name idx field fn input h]
    simp

theorem runStage_call_self_mem (completed : List String)
    (sd : List (String × List (String × Val))) (name : String) (idx : Nat) (field : String)
    (fn : Option Val → Val) (input : Option Val) (h : name ∉ completed) :
    Event.call name input ∈ (runStage completed sd name idx field fn input).1 := by
  rw [runStage_fresh_events completed sd name idx field fn input h]
  simp

/-- C2: for every stage S marked completed in the loaded checkpoint, the
re-run of the pipeline never invokes S's stage function (call count 0),
still emits a 100%-progress event for S, and — whenever S's successor is
pending — invokes that successor on exactly S's persisted checkpoint
payload. -/
theorem pipeline_idempotent_resume (completed : List String)
    (sd : List (String × List (String × Val))) (fns : StageFns) (video_path : String)
    (name : String) (idx : Nat) (field : String)
    (htab : (name, idx, field) ∈ stageTable) (hcomp : name ∈ completed) :
    (∀ v, Event.call name v ∉ runPipeline completed sd fns video_path) ∧
    Event.progress idx "complete" 100 ∈ runPipeline completed sd fns video_path ∧
    (∀ nx inx fnx, nextStage name = some (nx, inx, fnx) → nx ∉ completed →
      Event.call nx (persistedPayload sd name field) ∈
        runPipeline completed sd fns video_path) := by
  simp only [stageTable, List.mem_cons, List.not_mem_nil, or_false] at htab
  rcases htab with h | h | h | h
  · obtain ⟨rfl, rfl, rfl⟩ : name = "audio_extraction" ∧ idx = 1 ∧ field = "audio_path" := by
      simpa [Prod.ext_iff] using h
    refine ⟨?_, ?_, ?_⟩
    · intro v hv
      simp only [runPipeline, List.mem_append] at hv
      rcases hv with ((hv | hv) | hv) | hv
      · exact runStage_call_none_completed completed sd _ _ _ _ _ hcomp v hv
      · exact runStage_call_ne completed sd _ _ _ _ _ _ _ (by decide) hv
      · exact runStage_call_ne completed sd _ _ _ _ _ _ _ (by decide) hv
      · exact runStage_call_ne completed sd _ _ _ _ _ _ _ (by decide) hv
    · simp only [runPipeline, List.mem_append]
      exact Or.inl (Or.inl (Or.inl (runStage_progress_mem completed sd _ _ _ _ _)))
    · intro nx inx fnx hnx hnxc
      rw [show nextStage "audio_extraction" =
        some ("speech_recognition", 2, "recognition_result") from rfl] at hnx
      injection hnx with h'
      obtain ⟨rfl, rfl, rfl⟩ :
          "speech_recognition" = nx ∧ (2 : Nat) = inx ∧ "recognition_result" = fnx := by
        simpa [Prod.ext_iff] using h'
      have hval := runStage_resume_val completed sd "audio_extraction" 1 "audio_path"
        fns.extract (some (.str video_path)) hcomp
      have hc := runStage_call_self_mem completed sd "speech_recognition" 2
        "recognition_result" fns.recognize
        (runStage completed sd "audio_extraction" 1 "audio_path" fns.extract
          (some (.str video_path))).2 hnxc
      rw [← hval]
      simp only [runPipeline, List.mem_append]
      exact Or.inl (Or.inl (Or.inr hc))
  · obtain ⟨rfl, rfl, rfl⟩ :
        name = "speech_recognition" ∧ idx = 2 ∧ field = "recognition_result" := by
      simpa [Prod.ext_iff] using h
    refine ⟨?_, ?_, ?_⟩
    · intro v hv
      simp only [runPipeline, List.mem_append] at hv
      rcases hv with ((hv | hv) | hv) | hv
      · exact runStage_call_ne completed sd _ _ _ _ _ _ _ (by decide) hv
      · exact runStage_call_none_completed completed sd _ _ _ _ _ hcomp v hv
      · exact runStage_call_ne completed sd _ _ _ _ _ _ _ (by decide) hv
      · exact runStage_call_ne completed sd _ _ _ _ _ _ _ (by decide) hv
    · simp only [runPipeline, List.mem_append]
      exact Or.inl (Or.inl (Or.inr (runStage_progress_mem completed sd _ _ _ _ _)))
    · intro nx inx fnx hnx hnxc
      rw [show nextStage "speech_recognition" =
        some ("text_translation", 3, "translation_result") from rfl] at hnx
      injection hnx with h'
      obtain ⟨rfl, rfl, rfl⟩ :
          "text_translation" = nx ∧ (3 : Nat) = inx ∧ "translation_result" = fnx := by
        simpa [Prod.ext_iff] using h'
      have hval := runStage_resume_val completed sd "speech_recognition" 2
        "recognition_result" fns.recognize
        (runStage completed sd "audio_extraction" 1 "audio_path" fns.extract
          (some (.str video_path))).2 hcomp
      have hc := runStage_call_self_mem completed sd "text_translation" 3
        "translation_result" fns.translateSeg
        (runStage completed sd "speech_recognition" 2 "recognition_result" fns.recognize
          (runStage completed sd "audio_extraction" 1 "audio_path" fns.extract
            (some (.str video_path))).2).2 hnxc
      rw [← hval]
      simp only [runPipeline, List.mem_append]
      exact Or.inl (Or.inr hc)
  · obtain ⟨rfl, rfl, rfl⟩ :
        name = "text_translation" ∧ idx = 3 ∧ field = "translation_result" := by
      simpa [Prod.ext_iff] using h
    refine ⟨?_, ?_, ?_⟩
    · intro v hv
      simp only [runPipeline, List.mem_append] at hv
      rcases hv with ((hv | hv) | hv) | hv
      · exact runStage_call_ne completed sd _ _ _ _ _ _ _ (by decide) hv
      · exact runStage_call_ne completed sd _ _ _ _ _ _ _ (by decide) hv
      · exact runStage_call_none_completed completed sd _ _ _ _ _ hcomp v hv
      · exact runStage_call_ne completed sd _ _ _ _ _ _ _ (by decide) hv
    · simp only [runPipeline, List.mem_append]
      exact Or.inl (Or.inr (runStage_progress_mem completed sd _ _ _ _ _))
    · intro nx inx fnx hnx hnxc
      rw [show nextStage "text_translation" =
        some ("subtitle_generation", 4, "subtitle_path") from rfl] at hnx
      injection hnx with h'
      obtain ⟨rfl, rfl, rfl⟩ :
          "subtitle_generation" = nx ∧ (4 : Nat) = inx ∧ "subtitle_path" = fnx := by
        simpa [Prod.ext_iff] using h'
      have hval := runStage_resume_val completed sd "text_translation" 3
        "translation_result" fns.translateSeg
        (runStage completed sd "speech_recognition" 2 "recognition_result" fns.recognize
          (runStage completed sd "audio_extraction" 1 "audio_path" fns.extract
            (some (.str video_path))).2).2 hcomp
      have hc := runStage_call_self_mem completed sd "subtitle_generation" 4
        "subtitle_path" fns.subtitles
        (runStage completed sd "text_translation" 3 "translation_result" fns.translateSeg
          (runStage completed sd "speech_recognition" 2 "recognition_result" fns.recognize
            (runStage completed sd "audio_extraction" 1 "audio_path" fns.extract
              (some (.str video_path))).2).2).2 hnxc
      rw [← hval]
      simp only [runPipeline, List.mem_append]
      exact Or.inr hc
  · obtain ⟨rfl, rfl, rfl⟩ :
        name = "subtitle_generation" ∧ idx = 4 ∧ field = "subtitle_path" := by
      simpa [Prod.ext_iff] using h
    refine ⟨?_, ?_, ?_⟩
    · intro v hv
      simp only [runPipeline, List.mem_append] at hv
      rcases hv with ((hv | hv) | hv) | hv
      · exact runStage_call_ne completed sd _ _ _ _ _ _ _ (by decide) hv
      · exact runStage_call_ne completed sd _ _ _ _ _ _ _ (by decide) hv
      · exact runStage_call_ne completed sd _ _ _ _ _ _ _ (by decide) hv
      · exact runStage_call_none_completed completed sd _ _ _ _ _ hcomp v hv
    · simp only [runPipeline, List.mem_append]
      exact Or.inr (runStage_progress_mem completed sd _ _ _ _ _)
    · intro nx inx fnx hnx _
      rw [show nextStage "subtitle_generation" = none from rfl] at hnx
      cases hnx

/-- Stage functions with fixed outputs, standing in for the external
modules in the witness scenario. -/
def constFns : StageFns :=
  { extract := fun _ => .str "a.wav"
    recognize := fun _ => .dict []
    translateSeg := fun _ => .dict []
    subtitles := fun _ => .str "out.srt" }

/-- The checkpoint of the spec's resume scenario: audio extraction done,
payload `{audio_path: "x.wav"}`. -/
def resumeSD : List (String × List (String × Val)) :=
  [("audio_extraction", [("audio_path", Val.str "x.wav")])]

/-- C2 (witness): the theorem at the spec's scenario — extraction marked
complete with payload `x.wav`; the re-run never calls extraction, emits
its 100% event, and calls speech recognition on the persisted payload. -/
theorem pipeline_idempotent_resume_witness :
    (∀ v, Event.call "audio_extraction" v ∉
      runPipeline ["audio_extraction"] resumeSD constFns "v.mp4") ∧
    Event.progress 1 "complete" 100 ∈
      runPipeline ["audio_extraction"] resumeSD constFns "v.mp4" ∧
    Event.call "speech_recognition" (persistedPayload resumeSD "audio_extraction" "audio_path") ∈
      runPipeline ["audio_extraction"] resumeSD constFns "v.mp4" := by
  have h := pipeline_idempotent_resume ["audio_extraction"] resumeSD constFns "v.mp4"
    "audio_extraction" 1 "audio_path" (by simp [stageTable]) (by simp)
  exact ⟨h.1, h.2.1, h.2.2 "speech_recognition" 2 "recognition_result" rfl (by simp)⟩

/-! ## translate_batch (`TranslationManager.translate_batch`) -/

/-- Phase 1 of `translate_batch` (lines 632-658): walk the texts in order;
blank texts get a passthrough result, a cache hit (first provider key in
priority order, as in `translate`) its cached result, and a miss a `None`
placeholder plus entries in the uncached index and text lists.  `i` is the
running index of the enumeration. -/
def batchScan (services : List (String × Provider)) (priority : List String)
    (use_cache : Bool) (source_lang target_lang : String) :
    List String → Nat → TCache →
      List (Option TranslationResult) × List Nat × List String × TCache
  | [], _, cache => ([], [], [], cache)
  | text :: rest, i, cache =>
    if isBlank text then
      let out := batchScan services priority use_cache source_lang target_lang rest (i + 1) cache
      (some (passthroughResult text source_lang target_lang) :: out.1,
        out.2.1, out.2.2.1, out.2.2.2)
    else
      match (if use_cache then cacheScan services cache text source_lang target_lang priority
             else (none, cache)) with
      | (some (r, _), cache₁) =>
        let out := batchScan services priority use_cache source_lang target_lang rest (i + 1) cache₁
        (some r :: out.1, out.2.1, out.2.2.1, out.2.2.2)
      | (none, cache₁) =>
        let out := batchScan services priority use_cache source_lang target_lang rest (i + 1) cache₁
        (none :: out.1, i :: out.2.1, text :: out.2.2.1, out.2.2.2)

/-- Python list assignment `results[i] = v` (out of range is a no-op here;
Python would raise, and under the theorems' hypotheses every index is in
range). -/
def setIdx {α : Type} : List α → Nat → α → List α
  | [], _, _ => []
  | _ :: rest, 0, v => v :: rest
  | x :: rest, n + 1, v => x :: setIdx rest n v

/-- The first provider in priority order that is present in the services
dict and available (lines 664-669). -/
def firstAvailable (services : List (String × Provider)) : List String → Option Provider
  | [] => none
  | name :: rest =>
    match lookupA services name with
    | some p => if p.is_available then some p else firstAvailable services rest
    | none => firstAvailable services rest

/-- Phase 3 of `translate_batch` (lines 679-690): pair each batch result
with its original index, apply terminology, store it in the cache, and
place it at that index.  The walk stops with the shorter of the two lists,
mirroring `enumerate(batch_results)` indexed into `uncached_indices`. -/
def fillResults (terminology : List (String × List (String × String)))
    (use_cache : Bool) (now : Nat) (source_lang target_lang : String) :
    List (Option TranslationResult) → TCache → List Nat → List TranslationResult →
      List (Option TranslationResult) × TCache
  | results, cache, [], _ => (results, cache)
  | results, cache, _ :: _, [] => (results, cache)
  | results, cache, i :: idxs, r₀ :: rs =>
    let r := { r₀ with translated_text := (applyTerminology terminology
      r₀.translated_text source_lang target_lang) }
    let cache' := if use_cache then cacheStore cache r now else cache
    fillResults terminology use_cache now source_lang target_lang
      (setIdx results i (some r)) cache' idxs rs

/-- The no-available-service fill (lines 692-702): every uncached position
gets a low-confidence fallback echo of its own text. -/
def fillFallback (texts : List String) (source_lang target_lang : String) :
    List (Option TranslationResult) → List Nat → List (Option TranslationResult)
  | results, [] => results
  | results, i :: idxs =>
    fillFallback texts source_lang target_lang
      (setIdx results i (some
        { original_text := texts.getD i ""
          translated_text := texts.getD i ""
          source_lang := source_lang
          target_lang := target_lang
          confidence := 0
          service := "fallback"
          metadata := [("error", "No service available")] })) idxs

/-- `TranslationManager.translate_batch`.  The result list is
`Option`-valued to mirror the `None` placeholders: a `none` surviving into
the output is Python returning a list that still contains `None` (possible
only when a provider's batch call returns fewer results than requests). -/
def translateBatch (mgr : TranslationManager) (texts : List String)
    (source_lang target_lang : String) (use_cache : Bool) (now : Nat) :
    List (Option TranslationResult) × TCache :=
  match texts with
  | [] => ([], mgr.cache)
  | _ :: _ =>
    let scan := batchScan mgr.services mgr.service_priority use_cache source_lang target_lang
      texts 0 mgr.cache
    if scan.2.2.1.isEmpty then (scan.1, scan.2.2.2)
    else
      match firstAvailable mgr.services mgr.service_priority with
      | some p =>
        let reqs := scan.2.2.1.map (fun t => TranslationRequest.mk t source_lang target_lang)
        fillResults mgr.terminology use_cache now source_lang target_lang scan.1 scan.2.2.2
          scan.2.1 (p.translate_batch reqs)
      | none => (fillFallback texts source_lang target_lang scan.1 scan.2.1, scan.2.2.2)

/-- Write-through coherence of the two tiers: every memory entry is the
image of a persistent row stored under the same key (true of every state
reachable through `store`/`get`, which write through and copy up). -/
def MemSubPersistent (c : TCache) : Prop :=
  ∀ k r, lookupA c.memory k = some r →
    ∃ row, lookupA c.persistent k = some row ∧ rowToResult row = r

/-- Key coherence of a persistent tier for one language pair: a row found
under the key built from `text` records `text` as its original text (true
of every tier built by `store`, whose key is derived from the row's own
fields). -/
def KeyCoherentP (pers : List (String × CacheRow)) (source_lang target_lang : String) : Prop :=
  ∀ text svc row, lookupA pers (generateKey text source_lang target_lang svc) = some row →
    row.original_text = text

theorem setIdx_length {α : Type} :
    ∀ (l : List α) (n : Nat) (v : α), (setIdx l n v).length = l.length
  | [], _, _ => rfl
  | _ :: _, 0, _ => rfl
  | _ :: rest, n + 1, v => congrArg Nat.succ (setIdx_length rest n v)

theorem setIdx_get_self {α : Type} :
    ∀ (l : List α) (n : Nat) (v : α), n < l.length → (setIdx l n v).get? n = some v
  | _ :: _, 0, _, _ => rfl
  | _ :: rest, n + 1, v, h => setIdx_get_self rest n v (Nat.lt_of_succ_lt_succ h)

theorem setIdx_get_ne {α : Type} :
    ∀ (l : List α) (n j : Nat) (v : α), j ≠ n → (setIdx l n v).get? j = l.get? j
  | [], _, _, _, _ => rfl
  | _ :: _, 0, 0, _, h => absurd rfl h
  | _ :: _, 0, _ + 1, _, _ => rfl
  | _ :: _, _ + 1, 0, _, _ => rfl
  | _ :: rest, n + 1, j + 1, v, h =>
    setIdx_get_ne rest n j v (fun hh => h (congrArg Nat.succ hh))

theorem lookupA_mem {β : Type} : ∀ (m : List (String × β)) (k : String) (v : β),
    lookupA m k = some v → (k, v) ∈ m
  | [], _, _, h => by cases h
  | (k₀, v₀) :: rest, k, v, h => by
    rw [lookupA_cons] at h
    by_cases hk : k₀ = k
    · subst hk
      rw [if_pos rfl] at h
      injection h with h'
      subst h'
      exact List.mem_cons_self _ _
    · rw [if_neg hk] at h
      exact List.mem_cons_of_mem _ (lookupA_mem rest k v h)

theorem firstAvailable_mem (services : List (String × Provider)) :
    ∀ priority p, firstAvailable services priority = some p →
      ∃ name, (name, p) ∈ services := by
  intro priority
  induction priority with
  | nil => intro p h; cases h
  | cons name rest ih =>
    intro p h
    unfold firstAvailable at h
    cases hl : lookupA services name with
    | none => rw [hl] at h; exact ih p h
    | some q =>
      simp only [hl] at h
      by_cases hav : q.is_available
      · rw [if_pos hav] at h
        injection h with h'
        subst h'
        exact ⟨name, lookupA_mem _ _ _ hl⟩
      · rw [if_neg hav] at h
        exact ih p h

theorem memSub_maintainLRU (c : TCache) (key : String) (h : MemSubPersistent c) :
    MemSubPersistent (maintainLRU c key) := by
  intro k r hk
  exact h k r (lookupA_maintainLRU_some c key k r hk)

theorem cacheGet_coherent (c : TCache) (text s t svc : String) (hsub : MemSubPersistent c) :
    (cacheGet c text s t svc).1 =
      (lookupA c.persistent (generateKey text s t svc)).map rowToResult ∧
    (cacheGet c text s t svc).2.persistent = c.persistent ∧
    MemSubPersistent (cacheGet c text s t svc).2 := by
  cases hm : lookupA c.memory (generateKey text s t svc) with
  | some r =>
    obtain ⟨row, hrow, hconv⟩ := hsub _ _ hm
    have h2 : (cacheGet c text s t svc).2 = maintainLRU c (generateKey text s t svc) := by
      simp [cacheGet, hm]
    refine ⟨?_, ?_, ?_⟩
    · simp [cacheGet, hm, hrow, hconv]
    · rw [h2]; rfl
    · rw [h2]; exact memSub_maintainLRU c _ hsub
  | none =>
    cases hp : lookupA c.persistent (generateKey text s t svc) with
    | some row =>
      have h2 : (cacheGet c text s t svc).2 =
          maintainLRU { c with memory := (insertA c.memory (generateKey text s t svc)
            (rowToResult row)) } (generateKey text s t svc) := by
        simp [cacheGet, hm, hp]
      refine ⟨by simp [cacheGet, hm, hp], ?_, ?_⟩
      · rw [h2]; rfl
      · rw [h2]
        apply memSub_maintainLRU
        intro k r hk
        by_cases hkey : k = generateKey text s t svc
        · subst hkey
          rw [lookupA_insertA_self] at hk
          injection hk with h'
          exact ⟨row, hp, h'⟩
        · rw [lookupA_insertA_ne _ _ _ _ hkey] at hk
          exact hsub _ _ hk
    | none =>
      have h2 : cacheGet c text s t svc = (none, c) := by simp [cacheGet, hm, hp]
      rw [h2]
      exact ⟨by simp [hp], rfl, hsub⟩

/-- The first cache hit over the persistent tier alone, in priority order —
the value the scan produces under write-through coherence. -/
def firstHitP (services : List (String × Provider)) (pers : List (String × CacheRow))
    (text s t : String) : List String → Option TranslationResult
  | [] => none
  | name :: rest =>
    if (lookupA services name).isSome then
      match lookupA pers (generateKey text s t name) with
      | some row => some (rowToResult row)
      | none => firstHitP services pers text s t rest
    else firstHitP services pers text s t rest

theorem firstHitP_original (services : List (String × Provider))
    (pers : List (String × CacheRow)) (text s t : String)
    (hcoh : KeyCoherentP pers s t) :
    ∀ priority r, firstHitP services pers text s t priority = some r →
      r.original_text = text := by
  intro priority
  induction priority with
  | nil => intro r h; cases h
  | cons name rest ih =>
    intro r h
    unfold firstHitP at h
    by_cases hs : (lookupA services name).isSome
    · rw [if_pos hs] at h
      cases hp : lookupA pers (generateKey text s t name) with
      | some row =>
        rw [hp] at h
        injection h with h'
        subst h'
        have := hcoh text name row hp
        simp [rowToResult, this]
      | none =>
        rw [hp] at h
        exact ih r h
    · rw [if_neg hs] at h
      exact ih r h

theorem cacheScan_coherent (services : List (String × Provider)) (c : TCache)
    (text s t : String) (hsub : MemSubPersistent c) :
    ∀ priority,
      ((cacheScan services c text s t priority).1).map Prod.fst =
        firstHitP services c.persistent text s t priority ∧
      (cacheScan services c text s t priority).2.persistent = c.persistent ∧
      MemSubPersistent (cacheScan services c text s t priority).2 := by
  intro priority
  induction priority with
  | nil => exact ⟨rfl, rfl, hsub⟩
  | cons name rest ih =>
    obtain ⟨hg1, hg2, hg3⟩ := cacheGet_coherent c text s t name hsub
    unfold cacheScan firstHitP
    by_cases hs : (lookupA services name).isSome
    · rw [if_pos hs, if_pos hs]
      cases hp : lookupA c.persistent (generateKey text s t name) with
      | some row =>
        rw [hp] at hg1
        rcases hgg : cacheGet c text s t name with ⟨o, c'⟩
        rw [hgg] at hg1 hg2 hg3
        simp only at hg1 hg2 hg3
        subst hg1
        exact ⟨rfl, hg2, hg3⟩
      | none =>
        rw [hp] at hg1
        have hpure : cacheGetPure c text s t name = none := by
          rw [← cacheGet_fst]
          exact hg1
        rw [cacheGet_miss_state c text s t name hpure]
        exact ih
    · rw [if_neg hs, if_neg hs]
      exact ih

theorem batchScan_blank (services : List (String × Provider)) (priority : List String)
    (use_cache : Bool) (s t text : String) (rest : List String) (i : Nat) (c : TCache)
    (hb : isBlank text = true) :
    batchScan services priority use_cache s t (text :: rest) i c =
      (some (passthroughResult text s t) ::
          (batchScan services priority use_cache s t rest (i + 1) c).1,
        (batchScan services priority use_cache s t rest (i + 1) c).2.1,
        (batchScan services priority use_cache s t rest (i + 1) c).2.2.1,
        (batchScan services priority use_cache s t rest (i + 1) c).2.2.2) := by
  simp [batchScan, hb]

theorem batchScan_hit (services : List (String × Provider)) (priority : List String)
    (use_cache : Bool) (s t text : String) (rest : List String) (i : Nat) (c c₁ : TCache)
    (r₀ : TranslationResult) (nm : String) (hb : isBlank text = false)
    (hscan : (if use_cache then cacheScan services c text s t priority else (none, c)) =
      (some (r₀, nm), c₁)) :
    batchScan services priority use_cache s t (text :: rest) i c =
      (some r₀ :: (batchScan services priority use_cache s t rest (i + 1) c₁).1,
        (batchScan services priority use_cache s t rest (i + 1) c₁).2.1,
        (batchScan services priority use_cache s t rest (i + 1) c₁).2.2.1,
        (batchScan services priority use_cache s t rest (i + 1) c₁).2.2.2) := by
  simp [batchScan, hb, hscan]

theorem batchScan_miss (services : List (String × Provider)) (priority : List String)
    (use_cache : Bool) (s t text : String) (rest : List String) (i : Nat) (c c₁ : TCache)
    (hb : isBlank text = false)
    (hscan : (if use_cache then cacheScan services c text s t priority else (none, c)) =
      (none, c₁)) :
    batchScan services priority use_cache s t (text :: rest) i c =
      (none :: (batchScan services priority use_cache s t rest (i + 1) c₁).1,
        i :: (batchScan services priority use_cache s t rest (i + 1) c₁).2.1,
        text :: (batchScan services priority use_cache s t rest (i + 1) c₁).2.2.1,
        (batchScan services priority use_cache s t rest (i + 1) c₁).2.2.2) := by
  simp [batchScan, hb, hscan]

theorem batchScan_spec (services : List (String × Provider)) (priority : List String)
    (use_cache : Bool) (s t : String) :
    ∀ (texts : List String) (i : Nat) (c : TCache), MemSubPersistent c →
      (batchScan services priority use_cache s t texts i c).1.length = texts.length ∧
      (batchScan services priority use_cache s t texts i c).2.1.length =
        (batchScan services priority use_cache s t texts i c).2.2.1.length ∧
      (batchScan services priority use_cache s t texts i c).2.2.2.persistent = c.persistent ∧
      MemSubPersistent (batchScan services priority use_cache s t texts i c).2.2.2 ∧
      (∀ j r, (batchScan services priority use_cache s t texts i c).1.get? j = some (some r) →
        (isBlank (texts.getD j "") = true ∧ r = passthroughResult (texts.getD j "") s t) ∨
          firstHitP services c.persistent (texts.getD j "") s t priority = some r) ∧
      (∀ j, (batchScan services priority use_cache s t texts i c).1.get? j = some none →
        ∃ m, (batchScan services priority use_cache s t texts i c).2.1.get? m = some (i + j)) ∧
      (∀ m idx, (batchScan services priority use_cache s t texts i c).2.1.get? m = some idx →
        i ≤ idx ∧ idx - i < texts.length ∧
        (batchScan services priority use_cache s t texts i c).2.2.1.get? m =
          some (texts.getD (idx - i) "") ∧
        (batchScan services priority use_cache s t texts i c).1.get? (idx - i) = some none) := by
  intro texts
  induction texts with
  | nil =>
    intro i c hsub
    refine ⟨rfl, rfl, rfl, hsub, ?_, ?_, ?_⟩
    · intro j r h; simp [batchScan] at h
    · intro j h; simp [batchScan] at h
    · intro m idx h; simp [batchScan] at h
  | cons text rest ih =>
    intro i c hsub
    by_cases hb : isBlank text = true
    · rw [batchScan_blank services priority use_cache s t text rest i c hb]
      obtain ⟨ih1, ih2, ih3, ih4, ih5, ih6, ih7⟩ := ih (i + 1) c hsub
      refine ⟨by simp [ih1], ih2, ih3, ih4, ?_, ?_, ?_⟩
      · intro j r h
        cases j with
        | zero =>
          simp only [List.get?_cons_zero, Option.some.injEq] at h
          exact Or.inl ⟨hb, h.symm⟩
        | succ j => exact ih5 j r h
      · intro j h
        cases j with
        | zero => simp at h
        | succ j =>
          obtain ⟨m, hm⟩ := ih6 j h
          refine ⟨m, ?_⟩
          rw [show i + (j + 1) = i + 1 + j by omega]
          exact hm
      · intro m idx hm
        obtain ⟨h1, h2, h3, h4⟩ := ih7 m idx hm
        have hidx : idx - i = (idx - (i + 1)) + 1 := by omega
        refine ⟨by omega, by simp; omega, ?_, ?_⟩
        · rw [hidx]; exact h3
        · rw [hidx]; exact h4
    · have hb' : isBlank text = false := by simpa using hb
      rcases hscan : (if use_cache then cacheScan services c text s t priority
        else (none, c)) with ⟨o₀, c₁⟩
      have hc₁ : c₁.persistent = c.persistent ∧ MemSubPersistent c₁ ∧
          (∀ r₀ nm, o₀ = some (r₀, nm) →
            firstHitP services c.persistent text s t priority = some r₀) := by
        cases use_cache with
        | false =>
          simp only [Bool.false_eq_true, if_false] at hscan
          injection hscan with hs1 hs2
          subst hs2
          refine ⟨rfl, hsub, ?_⟩
          intro r₀ nm ho
          rw [ho] at hs1
          cases hs1
        | true =>
          simp only [if_true] at hscan
          obtain ⟨hs1, hs2, hs3⟩ := cacheScan_coherent services c text s t hsub priority
          rw [hscan] at hs1 hs2 hs3
          refine ⟨hs2, hs3, ?_⟩
          intro r₀ nm ho
          rw [ho] at hs1
          exact hs1.symm
      obtain ⟨hp₁, hsub₁, hhit⟩ := hc₁
      obtain ⟨ih1, ih2, ih3, ih4, ih5, ih6, ih7⟩ := ih (i + 1) c₁ hsub₁
      cases o₀ with
      | some pr =>
        rcases pr with ⟨r₀, nm⟩
        rw [batchScan_hit services priority use_cache s t text rest i c c₁ r₀ nm hb' hscan]
        refine ⟨by simp [ih1], ih2, by rw [ih3, hp₁], ih4, ?_, ?_, ?_⟩
        · intro j r h
          cases j with
          | zero =>
            simp only [List.get?_cons_zero, Option.some.injEq] at h
            subst h
            exact Or.inr (hhit r₀ nm rfl)
          | succ j =>
            rcases ih5 j r h with hl | hr
            · exact Or.inl hl
            · rw [hp₁] at hr
              exact Or.inr hr
        · intro j h
          cases j with
          | zero => simp at h
          | succ j =>
            obtain ⟨m, hm⟩ := ih6 j h
            refine ⟨m, ?_⟩
            rw [show i + (j + 1) = i + 1 + j by omega]
            exact hm
        · intro m idx hm
          obtain ⟨h1, h2, h3, h4⟩ := ih7 m idx hm
          have hidx : idx - i = (idx - (i + 1)) + 1 := by omega
          refine ⟨by omega, by simp; omega, ?_, ?_⟩
          · rw [hidx]; exact h3
          · rw [hidx]; exact h4
      | none =>
        rw [batchScan_miss services priority use_cache s t text rest i c c₁ hb' hscan]
        refine ⟨by simp [ih1], by simp [ih2], by rw [ih3, hp₁], ih4, ?_, ?_, ?_⟩
        · intro j r h
          cases j with
          | zero => simp at h
          | succ j =>
            rcases ih5 j r h with hl | hr
            · exact Or.inl hl
            · rw [hp₁] at hr
              exact Or.inr hr
        · intro j h
          cases j with
          | zero => exact ⟨0, rfl⟩
          | succ j =>
            obtain ⟨m, hm⟩ := ih6 j h
            refine ⟨m + 1, ?_⟩
            rw [show i + (j + 1) = i + 1 + j by omega]
            exact hm
        · intro m idx hm
          cases m with
          | zero =>
            simp only [List.get?_cons_zero, Option.some.injEq] at hm
            subst hm
            rw [show i - i = 0 from by omega]
            exact ⟨Nat.le_refl i, by simp, rfl, rfl⟩
          | succ m =>
            obtain ⟨h1, h2, h3, h4⟩ := ih7 m idx hm
            have hidx : idx - i = (idx - (i + 1)) + 1 := by omega
            refine ⟨by omega, by simp; omega, ?_, ?_⟩
            · rw [hidx]; exact h3
            · rw [hidx]; exact h4

theorem fillResults_length (terminology : List (String × List (String × String)))
    (use_cache : Bool) (now : Nat) (s t : String) :
    ∀ (idxs : List Nat) (rs : List TranslationResult)
      (results : List (Option TranslationResult)) (cache : TCache),
      (fillResults terminology use_cache now s t results cache idxs rs).1.length =
        results.length := by
  intro idxs
  induction idxs with
  | nil => intro rs results cache; rfl
  | cons i idxs ih =>
    intro rs results cache
    cases rs with
    | nil => rfl
    | cons r₀ rs =>
      simp only [fillResults]
      rw [ih]
      exact setIdx_length results i _

theorem fillResults_unchanged (terminology : List (String × List (String × String)))
    (use_cache : Bool) (now : Nat) (s t : String) (j : Nat) :
    ∀ (idxs : List Nat) (rs : List TranslationResult)
      (results : List (Option TranslationResult)) (cache : TCache),
      (∀ m, idxs.get? m ≠ some j) →
      (fillResults terminology use_cache now s t results cache idxs rs).1.get? j =
        results.get? j := by
  intro idxs
  induction idxs with
  | nil => intro rs results cache _; rfl
  | cons i idxs ih =>
    intro rs results cache hj
    cases rs with
    | nil => rfl
    | cons r₀ rs =>
      simp only [fillResults]
      rw [ih rs _ _ (fun m => hj (m + 1))]
      exact setIdx_get_ne results i j _ (fun hh => hj 0 (by rw [hh]; rfl))

theorem fillResults_covers (terminology : List (String × List (String × String)))
    (use_cache : Bool) (now : Nat) (s t : String) (ot : Nat → String) :
    ∀ (idxs : List Nat) (rs : List TranslationResult)
      (results : List (Option TranslationResult)) (cache : TCache),
      idxs.length = rs.length →
      (∀ m idx b, idxs.get? m = some idx → rs.get? m = some b → b.original_text = ot idx) →
      ∀ j m₀, idxs.get? m₀ = some j → j < results.length →
        ∃ b', (fillResults terminology use_cache now s t results cache idxs rs).1.get? j =
            some (some b') ∧ b'.original_text = ot j := by
  intro idxs
  induction idxs with
  | nil => intro rs results cache _ _ j m₀ h; simp at h
  | cons i idxs ih =>
    intro rs results cache hlen H1 j m₀ hm₀ hjlen
    cases rs with
    | nil => simp at hlen
    | cons b brs =>
      simp only [fillResults]
      by_cases hrest : ∃ m, idxs.get? m = some j
      · obtain ⟨m, hm⟩ := hrest
        exact ih brs (setIdx results i _) _ (by simpa using hlen)
          (fun m' idx' b' h1 h2 => H1 (m' + 1) idx' b' h1 h2) j m hm
          (by rw [setIdx_length]; exact hjlen)
      · have hij : i = j := by
          cases m₀ with
          | zero => simpa using hm₀
          | succ m => exact absurd hm₀ (fun hh => hrest ⟨m, hh⟩)
        subst hij
        rw [fillResults_unchanged terminology use_cache now s t i idxs brs _ _
          (fun m hh => hrest ⟨m, hh⟩)]
        refine ⟨_, setIdx_get_self results i _ hjlen, ?_⟩
        have := H1 0 i b rfl rfl
        simpa using this

theorem fillFallback_unchanged (texts : List String) (s t : String) (j : Nat) :
    ∀ (idxs : List Nat) (results : List (Option TranslationResult)),
      (∀ m, idxs.get? m ≠ some j) →
      (fillFallback texts s t results idxs).get? j = results.get? j := by
  intro idxs
  induction idxs with
  | nil => intro results _; rfl
  | cons i idxs ih =>
    intro results hj
    simp only [fillFallback]
    rw [ih _ (fun m => hj (m + 1))]
    exact setIdx_get_ne results i j _ (fun hh => hj 0 (by rw [hh]; rfl))

theorem fillFallback_covers (texts : List String) (s t : String) :
    ∀ (idxs : List Nat) (results : List (Option TranslationResult)) (j m₀ : Nat),
      idxs.get? m₀ = some j → j < results.length →
      ∃ b', (fillFallback texts s t results idxs).get? j = some (some b') ∧
        b'.original_text = texts.getD j "" := by
  intro idxs
  induction idxs with
  | nil => intro results j m₀ h; simp at h
  | cons i idxs ih =>
    intro results j m₀ hm₀ hjlen
    simp only [fillFallback]
    by_cases hrest : ∃ m, idxs.get? m = some j
    · obtain ⟨m, hm⟩ := hrest
      exact ih _ j m hm (by rw [setIdx_length]; exact hjlen)
    · have hij : i = j := by
        cases m₀ with
        | zero => simpa using hm₀
        | succ m => exact absurd hm₀ (fun hh => hrest ⟨m, hh⟩)
      subst hij
      rw [fillFallback_unchanged texts s t i idxs _ (fun m hh => hrest ⟨m, hh⟩)]
      exact ⟨_, setIdx_get_self results i _ hjlen, rfl⟩

theorem translateBatch_ne_nil (mgr : TranslationManager) (texts : List String)
    (source_lang target_lang : String) (use_cache : Bool) (now : Nat) (h : texts ≠ []) :
    translateBatch mgr texts source_lang target_lang use_cache now =
      (if (batchScan mgr.services mgr.service_priority use_cache source_lang target_lang
            texts 0 mgr.cache).2.2.1.isEmpty then
        ((batchScan mgr.services mgr.service_priority use_cache source_lang target_lang
            texts 0 mgr.cache).1,
          (batchScan mgr.services mgr.service_priority use_cache source_lang target_lang
            texts 0 mgr.cache).2.2.2)
      else
        match firstAvailable mgr.services mgr.service_priority with
        | some p =>
          fillResults mgr.terminology use_cache now source_lang target_lang
            (batchScan mgr.services mgr.service_priority use_cache source_lang target_lang
              texts 0 mgr.cache).1
            (batchScan mgr.services mgr.service_priority use_cache source_lang target_lang
              texts 0 mgr.cache).2.2.2
            (batchScan mgr.services mgr.service_priority use_cache source_lang target_lang
              texts 0 mgr.cache).2.1
            (p.translate_batch
              ((batchScan mgr.services mgr.service_priority use_cache source_lang target_lang
                texts 0 mgr.cache).2.2.1.map
                (fun tx => TranslationRequest.mk tx source_lang target_lang)))
        | none =>
          (fillFallback texts source_lang target_lang
            (batchScan mgr.services mgr.service_priority use_cache source_lang target_lang
              texts 0 mgr.cache).1
            (batchScan mgr.services mgr.service_priority use_cache source_lang target_lang
              texts 0 mgr.cache).2.1,
           (batchScan mgr.services mgr.service_priority use_cache source_lang target_lang
              texts 0 mgr.cache).2.2.2)) := by
  cases texts with
  | nil => exact absurd rfl h
  | cons a l => rfl

/-- C9: `translate_batch` returns one result per input text, in the
caller's original index order: the j-th output is a (non-`None`) result for
the j-th input text — whether that position was served by the blank
passthrough, a cache hit, the live batch call or the no-service fallback
fill.  Hypotheses: the cache tiers are write-through coherent, persistent
rows record the text their key was built from, and every configured
provider's batch call honours the provider contract (one result per
request, aligned by index). -/
theorem translateBatch_order (mgr : TranslationManager) (texts : List String)
    (source_lang target_lang : String) (use_cache : Bool) (now : Nat)
    (hsub : MemSubPersistent mgr.cache)
    (hcoh : KeyCoherentP mgr.cache.persistent source_lang target_lang)
    (hbatch : ∀ name p, (name, p) ∈ mgr.services → ∀ reqs,
      (p.translate_batch reqs).length = reqs.length ∧
      (∀ m req b, reqs.get? m = some req → (p.translate_batch reqs).get? m = some b →
        b.original_text = req.text)) :
    (translateBatch mgr texts source_lang target_lang use_cache now).1.length = texts.length ∧
    (∀ j, j < texts.length →
      ∃ r, (translateBatch mgr texts source_lang target_lang use_cache now).1.get? j =
          some (some r) ∧ r.original_text = texts.getD j "") := by
  by_cases hnil : texts = []
  · subst hnil
    exact ⟨rfl, fun j hj => absurd hj (by simp)⟩
  · rw [translateBatch_ne_nil mgr texts source_lang target_lang use_cache now hnil]
    obtain ⟨b1, b2, b3, b4, b5, b6, b7⟩ := batchScan_spec mgr.services mgr.service_priority
      use_cache source_lang target_lang texts 0 mgr.cache hsub
    set scan := batchScan mgr.services mgr.service_priority use_cache source_lang target_lang
      texts 0 mgr.cache with hscandef
    have hfirst : ∀ j r, scan.1.get? j = some (some r) →
        r.original_text = texts.getD j "" := by
      intro j r h
      rcases b5 j r h with ⟨_, rfl⟩ | hhit
      · rfl
      · exact firstHitP_original mgr.services mgr.cache.persistent (texts.getD j "")
          source_lang target_lang hcoh mgr.service_priority r hhit
    have hnotidx : ∀ j r, scan.1.get? j = some (some r) →
        ∀ m, scan.2.1.get? m ≠ some j := by
      intro j r h m hm
      obtain ⟨_, _, _, h4⟩ := b7 m j hm
      rw [show j - 0 = j from rfl] at h4
      rw [h] at h4
      cases h4
    by_cases hqe : scan.2.2.1.isEmpty
    · rw [if_pos hqe]
      have hidxnil : scan.2.1 = [] := by
        have := List.isEmpty_iff.mp hqe
        exact List.eq_nil_of_length_eq_zero (by rw [b2, this]; rfl)
      refine ⟨b1, ?_⟩
      intro j hj
      have hjlen : j < scan.1.length := by rw [b1]; exact hj
      obtain ⟨v, hv⟩ : ∃ v, scan.1.get? j = some v := ⟨_, List.get?_eq_get hjlen⟩
      cases v with
      | some r => exact ⟨r, hv, hfirst j r hv⟩
      | none =>
        obtain ⟨m, hm⟩ := b6 j hv
        rw [hidxnil] at hm
        simp at hm
    · rw [if_neg hqe]
      cases hfa : firstAvailable mgr.services mgr.service_priority with
      | some p =>
        obtain ⟨nm, hmem⟩ := firstAvailable_mem mgr.services mgr.service_priority p hfa
        obtain ⟨hb1, hb2⟩ := hbatch nm p hmem
          (scan.2.2.1.map (fun tx => TranslationRequest.mk tx source_lang target_lang))
        have hlen : scan.2.1.length =
            (p.translate_batch (scan.2.2.1.map
              (fun tx => TranslationRequest.mk tx source_lang target_lang))).length := by
          rw [hb1, List.length_map, b2]
        have H1 : ∀ m idx b, scan.2.1.get? m = some idx →
            (p.translate_batch (scan.2.2.1.map
              (fun tx => TranslationRequest.mk tx source_lang target_lang))).get? m = some b →
            b.original_text = texts.getD idx "" := by
          intro m idx b hm hbr
          obtain ⟨_, _, h3, _⟩ := b7 m idx hm
          rw [show idx - 0 = idx from rfl] at h3
          have hreq : (scan.2.2.1.map
              (fun tx => TranslationRequest.mk tx source_lang target_lang)).get? m =
              some (TranslationRequest.mk (texts.getD idx "") source_lang target_lang) := by
            rw [List.get?_map, h3]
            rfl
          exact hb2 m _ b hreq hbr
        refine ⟨?_, ?_⟩
        · rw [fillResults_length, b1]
        · intro j hj
          have hjlen : j < scan.1.length := by rw [b1]; exact hj
          obtain ⟨v, hv⟩ : ∃ v, scan.1.get? j = some v := ⟨_, List.get?_eq_get hjlen⟩
          cases v with
          | some r =>
            refine ⟨r, ?_, hfirst j r hv⟩
            rw [fillResults_unchanged mgr.terminology use_cache now source_lang target_lang
              j scan.2.1 _ scan.1 scan.2.2.2 (hnotidx j r hv)]
            exact hv
          | none =>
            obtain ⟨m, hm⟩ := b6 j hv
            rw [Nat.zero_add] at hm
            exact fillResults_covers mgr.terminology use_cache now source_lang target_lang
              (fun idx => texts.getD idx "") scan.2.1 _ scan.1 scan.2.2.2 hlen H1 j m hm hjlen
      | none =>
        refine ⟨?_, ?_⟩
        · have : ∀ (res : List (Option TranslationResult)) (idxs : List Nat),
              (fillFallback texts source_lang target_lang res idxs).length = res.length := by
            intro res idxs
            induction idxs generalizing res with
            | nil => rfl
            | cons i idxs ih => simp only [fillFallback]; rw [ih, setIdx_length]
          rw [this, b1]
        · intro j hj
          have hjlen : j < scan.1.length := by rw [b1]; exact hj
          obtain ⟨v, hv⟩ : ∃ v, scan.1.get? j = some v := ⟨_, List.get?_eq_get hjlen⟩
          cases v with
          | some r =>
            refine ⟨r, ?_, hfirst j r hv⟩
            rw [fillFallback_unchanged texts source_lang target_lang j scan.2.1 scan.1
              (hnotidx j r hv)]
            exact hv
          | none =>
            obtain ⟨m, hm⟩ := b6 j hv
            rw [Nat.zero_add] at hm
            exact fillFallback_covers texts source_lang target_lang scan.2.1 scan.1 j m hm hjlen

theorem map_batch_contract (f : TranslationRequest → TranslationResult)
    (hf : ∀ req, (f req).original_text = req.text) (reqs : List TranslationRequest) :
    (reqs.map f).length = reqs.length ∧
    (∀ m req b, reqs.get? m = some req → (reqs.map f).get? m = some b →
      b.original_text = req.text) := by
  constructor
  · exact List.length_map _ _
  · intro m req b h1 h2
    rw [List.get?_map, h1] at h2
    injection h2 with h'
    rw [← h']
    exact hf req

/-- C9 (witness): the theorem at a concrete manager and a three-text batch
whose middle text is blank: three results, each carrying its own input
text, in the caller's order. -/
theorem translateBatch_order_witness :
    (translateBatch mgrNoRealService ["good", "", "morning"] "en" "fr" true 5).1.length = 3 ∧
    (∀ j, j < 3 →
      ∃ r, (translateBatch mgrNoRealService ["good", "", "morning"] "en" "fr" true 5).1.get? j =
          some (some r) ∧
        r.original_text = (["good", "", "morning"] : List String).getD j "") := by
  have h := translateBatch_order mgrNoRealService ["good", "", "morning"] "en" "fr" true 5
    (by intro k r hk; simp [mgrNoRealService, emptyCache] at hk)
    (by intro text svc row hk; simp [mgrNoRealService, emptyCache] at hk)
    (by
      intro name p hmem reqs
      simp only [mgrNoRealService, List.mem_cons, List.not_mem_nil, or_false] at hmem
      rcases hmem with hm | hm
      · obtain ⟨-, rfl⟩ : name = "DeepL" ∧ p = deeplNoKey := by
          simpa [Prod.ext_iff] using hm
        exact map_batch_contract _ (fun req => rfl) reqs
      · obtain ⟨-, rfl⟩ : name = "Fallback" ∧ p = fallbackTranslator := by
          simpa [Prod.ext_iff] using hm
        exact map_batch_contract _ (fun req => rfl) reqs)
  exact h

end VideoTranslator
